import Mathlib

/-!
Verification of the MOTC news crawler (src/main.py).

The pure core of the crawler is shallowly embedded here:

* text/markup heuristics (`parse_list_page`, `parse_article_page` and their
  regex-like scanners) operate on explicit `List Char` / `List String` data;
* external collaborators (HTTP transport, BeautifulSoup flattening,
  urllib URL manipulation, the filesystem) are modelled at their interfaces:
  a fetch is a function from URL to the anchor list / line list the
  downstream parser would see, and storage is an explicit set of paths;
* the lazy generator `iter_list_pages` is run with explicit fuel and returns
  the full trace (yields, page fetches, discovery probe fetches).

Machine integers do not occur; all arithmetic is on `Nat`.
-/

set_option autoImplicit false

namespace Motc

/-- Whitespace as Python's `str.strip` / regex `\s` sees it, restricted to the
characters that can arise in this domain (ASCII whitespace plus the full-width
and no-break spaces). -/
def isPySpace (c : Char) : Bool :=
  c = ' ' || c = '\t' || c = '\n' || c = '\r' || c = '\x0b' || c = '\x0c' ||
    c = ' ' || c = '　'

/-- Drop leading and trailing characters satisfying `p` (Python `str.strip`). -/
def stripBoth (p : Char → Bool) (cs : List Char) : List Char :=
  ((cs.dropWhile p).reverse.dropWhile p).reverse

/-- Python `str.strip()` (no arguments): strip whitespace at both ends. -/
def pyStrip (s : String) : String :=
  String.mk (stripBoth isPySpace s.data)

/-- Literal-prefix test on character lists. -/
def litPre : List Char → List Char → Bool
  | [], _ => true
  | _ :: _, [] => false
  | l :: ls, c :: cs => c = l && litPre ls cs

/-- Python `s.startswith(pre)` prefix test. -/
def startsWithL (s pre : String) : Bool :=
  litPre pre.data s.data

/-- Substring occurrence test on character lists. -/
def litIn (sub : List Char) : List Char → Bool
  | [] => litPre sub []
  | c :: cs => litPre sub (c :: cs) || litIn sub cs

/-- Python `sub in s` substring test. -/
def strContains (s sub : String) : Bool :=
  litIn sub.data s.data

/-- Match a literal prefix, returning the remainder on success. -/
def matchLit : List Char → List Char → Option (List Char)
  | [], cs => some cs
  | _ :: _, [] => none
  | l :: ls, c :: cs => if c = l then matchLit ls cs else none

/-- Take exactly `k` ASCII digits, returning them and the remainder. -/
def takeDigits : Nat → List Char → Option (List Char × List Char)
  | 0, cs => some ([], cs)
  | _ + 1, [] => none
  | k + 1, c :: cs =>
    if c.isDigit then (takeDigits k cs).map (fun r => (c :: r.1, r.2)) else none

/-- Require a literal character at the head. -/
def expectChar (ch : Char) : List Char → Option (List Char)
  | [] => none
  | c :: cs => if c = ch then some cs else none

/-- The date pattern `[0-9]{3}-[0-9]{2}-[0-9]{2}` applied right after the
label (with any amount of regex-`\s*` whitespace skipped first), as in
`re.search` on `src/main.py` line 86. -/
def dateAfter (cs : List Char) : Option String :=
  (takeDigits 3 (cs.dropWhile isPySpace)).bind fun p1 =>
    (expectChar '-' p1.2).bind fun r1 =>
      (takeDigits 2 r1).bind fun p2 =>
        (expectChar '-' p2.2).bind fun r2 =>
          (takeDigits 2 r2).bind fun p3 =>
            some (String.mk (p1.1 ++ '-' :: p2.1 ++ '-' :: p3.1))

/-- The unit pattern `\s*([^\s]+)` applied right after the label, as in
`re.search` on `src/main.py` line 87. -/
def unitAfter (cs : List Char) : Option String :=
  let cs := cs.dropWhile isPySpace
  let run := cs.takeWhile (fun c => !isPySpace c)
  if run.isEmpty then none else some (String.mk run)

/-- Unanchored `re.search`: try the matcher at every start position, first
success wins. -/
def reSearch {α : Type} (f : List Char → Option α) : List Char → Option α
  | [] => f []
  | c :: cs =>
    match f (c :: cs) with
    | some v => some v
    | none => reSearch f cs

def dateLabel : String := "發布日期："
def unitLabel : String := "發布單位："

/-- Capture of `re.search(r"發布日期：\s*([0-9]{3}-[0-9]{2}-[0-9]{2})", text)` capture. -/
def searchDate (text : String) : Option String :=
  reSearch (fun cs => (matchLit dateLabel.data cs).bind dateAfter) text.data

/-- Capture of `re.search(r"發布單位：\s*([^\s]+)", text)` capture. -/
def searchUnit (text : String) : Option String :=
  reSearch (fun cs => (matchLit unitLabel.data cs).bind unitAfter) text.data

/-- Matcher for `發布單位：\s*[^\s]+\s*` at the current position, returning the
remainder of the text after the whole match. -/
def matchUnitSub (cs : List Char) : Option (List Char) :=
  (matchLit unitLabel.data cs).bind fun r =>
    let r := r.dropWhile isPySpace
    let run := r.takeWhile (fun c => !isPySpace c)
    if run.isEmpty then none
    else some ((r.drop run.length).dropWhile isPySpace)

/-- The anchored lazy search `^.*?發布單位：\s*[^\s]+\s*` of `re.sub` on
`src/main.py` line 94: advance one (non-newline) character at a time until the
tail pattern matches; `.` never crosses a newline. -/
def lazyUnitSub : List Char → Option (List Char)
  | [] => matchUnitSub []
  | c :: cs =>
    match matchUnitSub (c :: cs) with
    | some r => some r
    | none => if c = '\n' then none else lazyUnitSub cs

/-- Composition `re.sub(r"^.*?發布單位：\s*[^\s]+\s*", "", text).strip()`. -/
def titleOf (text : String) : String :=
  match lazyUnitSub text.data with
  | some rest => pyStrip (String.mk rest)
  | none => pyStrip text

/-- Modelled from the spec: `urllib.parse.urljoin` (external library used at
`src/main.py` line 98) resolving a reference against the site base; absolute
references are kept, others are attached to the base. -/
def urljoin (base rel : String) : String :=
  if rel = "" then base
  else if strContains rel "://" then rel
  else if startsWithL rel "/" then base ++ rel
  else base ++ "/" ++ rel

def BASE_URL : String := "https://www.motc.gov.tw"
def LIST_URL : String := "https://www.motc.gov.tw/ch/app/news_list?lang=ch&folderName=ch&id=14"

/-- One summary record from the listing page (`NewsItem` in src/main.py). -/
structure NewsItem where
  url : String
  date : String
  unit : String
  title : String
  deriving DecidableEq, Repr

/-- One `<a>` element of a listing page as the parser sees it: its `href`
attribute and its flattened visible text (`a.get_text(" ", strip=True)`).
BeautifulSoup's HTML parsing is external; this is its interface. -/
structure Anchor where
  href : String
  text : String
  deriving DecidableEq, Repr

/-- The CSS selector of `src/main.py` lines 76-78: `href` must contain all
four fixed substrings. -/
def anchorSelected (a : Anchor) : Bool :=
  strContains a.href "/ch/app/news_list/view" && strContains a.href "module=news" &&
    strContains a.href "serno=" && strContains a.href "id=14"

/-- The per-anchor extraction of `src/main.py` lines 81-99; `none` models the
`continue` branches (candidate silently skipped). -/
def parseAnchor (a : Anchor) : Option NewsItem :=
  if !(strContains a.text dateLabel && strContains a.text unitLabel) then none
  else
    match searchDate a.text, searchUnit a.text with
    | some date, some unit =>
      let title := titleOf a.text
      if title = "" then none
      else some ⟨urljoin BASE_URL (pyStrip a.href), date, unit, title⟩
    | _, _ => none

/-- Insert-or-overwrite in an insertion-ordered association list: the
semantics of `uniq[it.url] = it` on a Python dict (`src/main.py` line 104). -/
def upsert (m : List (String × NewsItem)) (k : String) (v : NewsItem) :
    List (String × NewsItem) :=
  match m with
  | [] => [(k, v)]
  | (k', v') :: rest => if k' = k then (k, v) :: rest else (k', v') :: upsert rest k v

/-- The dict built by the dedup loop of `src/main.py` lines 102-104. -/
def uniqMap (items : List NewsItem) : List (String × NewsItem) :=
  items.foldl (fun m it => upsert m it.url it) []

/-- Projection `list(uniq.values())` (`src/main.py` line 105). -/
def dedupByUrl (items : List NewsItem) : List NewsItem :=
  (uniqMap items).map (·.2)

/-- The record list before the final URL dedup (`src/main.py` lines 80-99). -/
def preDedupItems (anchors : List Anchor) : List NewsItem :=
  (anchors.filter anchorSelected).filterMap parseAnchor

/-- Embedding of `parse_list_page` (`src/main.py` lines 70-105), over the anchor list the
HTML parser would deliver. -/
def parse_list_page (anchors : List Anchor) : List NewsItem :=
  dedupByUrl (preDedupItems anchors)

/-! ### Article extractor -/

/-- One extracted article (the dict returned by `parse_article_page`);
`none` fields model the absent-label case. -/
structure Article where
  url : String
  news_type : Option String
  biz_type : Option String
  date : Option String
  unit : Option String
  title : Option String
  body_lines : List String
  deriving DecidableEq, Repr

def bannerLabel : String := "交通新聞稿"

/-- First index at which `x` occurs (Python `list.index`, guarded use only). -/
def firstIdx (x : String) : List String → Option Nat
  | [] => none
  | y :: ys => if y = x then some 0 else (firstIdx x ys).map (· + 1)

/-- Embedding of `extract_main_text_block` (`src/main.py` lines 108-114) over the flattened
text lines delivered by the HTML parser: strip each line, drop blanks, and
keep everything from the last banner-label line on. -/
def extract_main_text_block (lines : List String) : List String :=
  let ls := (lines.map pyStrip).filter (fun ln => ln ≠ "")
  let idxs := (ls.enum.filter (fun p => p.2 = bannerLabel)).map (·.1)
  match idxs.getLast? with
  | some i => ls.drop i
  | none => ls

/-- Everything after the first `：` of a line, or the whole line when it has
none: Python `ln.split("：", 1)[-1]`. -/
def afterColon (ln : String) : String :=
  match ln.data.dropWhile (fun c => c ≠ '：') with
  | [] => ln
  | _ :: rest => String.mk rest

/-- Embedding of `find_value` (`src/main.py` lines 121-125): first line of the first 80
starting with the label, value after the separator. -/
def find_value (block : List String) (pre : String) : Option String :=
  ((block.take 80).find? (fun ln => startsWithL ln pre)).map
    (fun ln => pyStrip (afterColon ln))

/-- Python `a or b` on two optional strings (`None` and `""` are falsy). -/
def pyOr (a b : Option String) : Option String :=
  match a with
  | some s => if s = "" then b else some s
  | none => b

/-- Python `a or b` where `b` is a plain string. -/
def pyOrStr (a : Option String) (b : String) : String :=
  match a with
  | some s => if s = "" then b else s
  | none => b

def fieldLabels : List String := ["新聞類別", "業務分類", "分類", "發布日期", "發布單位"]

/-- Acceptance test of the title scan (`src/main.py` lines 137-144): a
candidate is taken iff it is non-empty and not both containing a full-width
colon and starting with one of the five field labels. -/
def candAccept (cand : String) : Bool :=
  cand ≠ "" && !(strContains cand "：" && fieldLabels.any (fun p => startsWithL cand p))

/-- The inner title loop (`src/main.py` lines 136-145) over the window of
lines it inspects: first accepted stripped candidate. -/
def firstGoodCand : List String → Option String
  | [] => none
  | ln :: rest =>
    let cand := pyStrip ln
    if candAccept cand then some cand else firstGoodCand rest

/-- The window of lines the inner title loop inspects after finding the unit
label at index `i`: indices `i+1` to `min (i+10) block.length - 1`. -/
def titleWindow (block : List String) (i : Nat) : List String :=
  (block.drop (i + 1)).take (min (i + 10) block.length - (i + 1))

/-- The title heuristic (`src/main.py` lines 133-146): first unit-label line
within the first 120 lines, then the first accepted candidate from the next
at most nine lines. -/
def scanTitle (block : List String) : Option String :=
  match (block.take 120).findIdx? (fun ln => startsWithL ln unitLabel) with
  | none => none
  | some i => firstGoodCand (titleWindow block i)

/-- The pre-truncation body (`src/main.py` lines 149-154): everything after
the first occurrence of the title string in the block, or from line 10 when
no title was found (or, vacuously, when the title string is not in the
block). -/
def rawBodyOfBlock (block : List String) : List String :=
  match scanTitle block with
  | some t =>
    match firstIdx t block with
    | some i => block.drop (i + 1)
    | none => block.drop 10
  | none => block.drop 10

def STOP_MARKERS : List String := ["回上一頁", "回頁首", "更新日期", "瀏覽人次", "點閱次數", "分享"]

/-- Embedding of `parse_article_page` (`src/main.py` lines 117-171) over the flattened
text lines of the article page. -/
def parse_article_page (lines : List String) (url : String) : Article :=
  let block := extract_main_text_block lines
  { url := url
    news_type := find_value block "新聞類別"
    biz_type := pyOr (find_value block "業務分類") (find_value block "分類")
    date := find_value block "發布日期"
    unit := find_value block "發布單位"
    title := scanTitle block
    body_lines := (rawBodyOfBlock block).takeWhile (fun ln => !STOP_MARKERS.contains ln) }

/-! ### Filename sanitization and target paths -/

/-- The characters forbidden by `sanitize_filename` (`src/main.py` line 28). -/
def forbiddenChars : List Char := ['\\', '/', ':', '*', '?', '"', '<', '>', '|']

/-- Collapse adjacent spaces to one (run helper for `re.sub(r"\s+", " ")`). -/
def squeeze : List Char → List Char
  | [] => []
  | [c] => [c]
  | c1 :: c2 :: rest =>
    if c1 = ' ' && c2 = ' ' then squeeze (c2 :: rest) else c1 :: squeeze (c2 :: rest)

/-- Semantics of `re.sub(r"\s+", " ", s)`: every maximal whitespace run becomes a single
space. -/
def collapseWs (cs : List Char) : List Char :=
  squeeze (cs.map (fun c => if isPySpace c then ' ' else c))

/-- Drop trailing characters satisfying `p` (Python `str.rstrip`). -/
def rstripBy (p : Char → Bool) (cs : List Char) : List Char :=
  (cs.reverse.dropWhile p).reverse

/-- Embedding of `sanitize_filename` (`src/main.py` lines 26-33) with the default
`max_len = 180`. -/
def sanitize_filename (name : String) : String :=
  let n1 := name.data.map (fun c => if forbiddenChars.contains c then '_' else c)
  let n2 := stripBoth isPySpace (collapseWs n1)
  let n3 := stripBoth (fun c => c = '.' || c = ' ') n2
  let n4 := if n3.length > 180 then rstripBy isPySpace (n3.take 180) else n3
  String.mk n4

/-- Embedding of `target_path` (`src/main.py` lines 204-206); `os.path.join` is modelled
as joining with a slash. -/
def target_path (out_dir unit date title : String) : String :=
  out_dir ++ "/" ++ sanitize_filename (unit ++ "_" ++ date ++ "_" ++ title ++ ".md")

/-! ### Pagination discovery -/

/-- A fetched listing page as the parser sees it (BeautifulSoup interface). -/
abbrev Html := List Anchor

/-- A fetch collaborator: URL to parsed page content. Transport retries and
failures live outside this model (a listing-level failure aborts the run in
the source as well, so listing fetches are modelled total). -/
abbrev Fetch := String → Html

/-- Split a character list at every occurrence of a separator character. -/
def splitChar (sep : Char) : List Char → List (List Char)
  | [] => [[]]
  | c :: rest =>
    if c = sep then [] :: splitChar sep rest
    else
      match splitChar sep rest with
      | h :: t => (c :: h) :: t
      | [] => [[c]]

/-- Python `s.split(sep)` for a one-character separator. -/
def splitOnChar (sep : Char) (s : String) : List String :=
  (splitChar sep s.data).map String.mk

/-- Split a string at the first occurrence of a separator character. -/
def splitFirst (sep : Char) (s : String) : String × Option String :=
  match s.data.span (fun c => c ≠ sep) with
  | (pre, []) => (String.mk pre, none)
  | (pre, _ :: rest) => (String.mk pre, some (String.mk rest))

/-! `set_query_param` (src/main.py lines 62-67) composes the external
`urllib.parse` functions `urlparse`, `parse_qs`, `urlencode` and
`urlunparse`.  The following definitions are interface models of those
library functions (library code, not repository code), each following the
CPython implementation, so that `set_query_param` itself can be embedded
exactly as the source composes them. -/

/-- Hexadecimal-digit test (ASCII). -/
def isHexDigit (c : Char) : Bool :=
  c.isDigit || ('a' ≤ c && c ≤ 'f') || ('A' ≤ c && c ≤ 'F')

/-- Value of a hexadecimal digit. -/
def hexVal (c : Char) : Nat :=
  if c.isDigit then c.toNat - '0'.toNat
  else if 'a' ≤ c && c ≤ 'f' then c.toNat - 'a'.toNat + 10
  else c.toNat - 'A'.toNat + 10

/-- Uppercase hexadecimal digit of a value below 16. -/
def hexUpper (n : Nat) : Char :=
  if n < 10 then Char.ofNat ('0'.toNat + n) else Char.ofNat ('A'.toNat + (n - 10))

/-- UTF-8 byte sequence of one character. -/
def utf8Bytes (c : Char) : List Nat :=
  let n := c.toNat
  if n < 0x80 then [n]
  else if n < 0x800 then [0xC0 + n / 64, 0x80 + n % 64]
  else if n < 0x10000 then [0xE0 + n / 4096, 0x80 + n / 64 % 64, 0x80 + n % 64]
  else [0xF0 + n / 262144, 0x80 + n / 4096 % 64, 0x80 + n / 64 % 64, 0x80 + n % 64]

/-- Character of a decoded code point; invalid code points (surrogates,
out of range) become the replacement character, as Python's
`errors="replace"` decoding yields. -/
def charOfCodepoint (n : Nat) : Char :=
  if n < 0xD800 then Char.ofNat n
  else if 0xE000 ≤ n && n < 0x110000 then Char.ofNat n
  else '�'

/-- Tokenize percent escapes: each valid `%XY` becomes the byte `XY`, every
other character passes through (an invalid escape keeps its literal `%`, as
in `urllib.parse.unquote`). -/
def pctTok : List Char → List (Sum Nat Char)
  | [] => []
  | '%' :: h1 :: h2 :: rest =>
    if isHexDigit h1 && isHexDigit h2 then
      Sum.inl (hexVal h1 * 16 + hexVal h2) :: pctTok rest
    else Sum.inr '%' :: pctTok (h1 :: h2 :: rest)
  | c :: rest => Sum.inr c :: pctTok rest

/-- UTF-8 continuation-byte test. -/
def contByte (b : Nat) : Bool :=
  0x80 ≤ b && b < 0xC0

/-- Decode the byte tokens as UTF-8, passing plain characters through; run
with fuel (each step consumes at least one token, so the token count is
enough fuel). Well-formed sequences decode exactly; a malformed lead or
missing continuation byte becomes the replacement character (a
simplification of CPython's `errors="replace"` grouping on malformed
input). -/
def decodeToksGo : Nat → List (Sum Nat Char) → List Char
  | 0, _ => []
  | _ + 1, [] => []
  | fuel + 1, Sum.inr c :: rest => c :: decodeToksGo fuel rest
  | fuel + 1, Sum.inl b :: rest =>
    if b < 0x80 then charOfCodepoint b :: decodeToksGo fuel rest
    else if 0xC2 ≤ b && b ≤ 0xDF then
      match rest with
      | Sum.inl b2 :: rest2 =>
        if contByte b2 then
          charOfCodepoint ((b - 0xC0) * 64 + (b2 - 0x80)) :: decodeToksGo fuel rest2
        else '�' :: decodeToksGo fuel rest
      | _ => '�' :: decodeToksGo fuel rest
    else if 0xE0 ≤ b && b ≤ 0xEF then
      match rest with
      | Sum.inl b2 :: Sum.inl b3 :: rest3 =>
        if contByte b2 && contByte b3 then
          charOfCodepoint ((b - 0xE0) * 4096 + (b2 - 0x80) * 64 + (b3 - 0x80))
            :: decodeToksGo fuel rest3
        else '�' :: decodeToksGo fuel rest
      | _ => '�' :: decodeToksGo fuel rest
    else if 0xF0 ≤ b && b ≤ 0xF4 then
      match rest with
      | Sum.inl b2 :: Sum.inl b3 :: Sum.inl b4 :: rest4 =>
        if contByte b2 && contByte b3 && contByte b4 then
          charOfCodepoint ((b - 0xF0) * 262144 + (b2 - 0x80) * 4096
              + (b3 - 0x80) * 64 + (b4 - 0x80)) :: decodeToksGo fuel rest4
        else '�' :: decodeToksGo fuel rest
      | _ => '�' :: decodeToksGo fuel rest
    else '�' :: decodeToksGo fuel rest

/-- Decode a full token list (fuel instantiated to the token count). -/
def decodeToks (toks : List (Sum Nat Char)) : List Char :=
  decodeToksGo toks.length toks

/-- Interface model of the external `urllib.parse.unquote_plus`: `+` becomes
a space first, then percent escapes are decoded as UTF-8. -/
def unquote_plus (s : String) : String :=
  String.mk (decodeToks (pctTok (s.data.map (fun c => if c = '+' then ' ' else c))))

/-- The characters `urllib.parse.quote` never encodes (with `safe=""`, as
`urlencode` passes): ASCII letters, digits, and `_.-~`. -/
def alwaysSafe (c : Char) : Bool :=
  c.isAlphanum || c = '_' || c = '.' || c = '-' || c = '~'

/-- Percent-encoding of one byte, uppercase hex. -/
def pctEncByte (b : Nat) : List Char :=
  ['%', hexUpper (b / 16), hexUpper (b % 16)]

/-- Encoding of one character under `quote_plus` with `safe=""`. -/
def quotePlusChar (c : Char) : List Char :=
  if alwaysSafe c then [c]
  else if c = ' ' then ['+']
  else (utf8Bytes c).flatMap pctEncByte

/-- Interface model of the external `urllib.parse.quote_plus` with
`safe=""`: safe characters kept, space becomes `+`, everything else is
percent-encoded as UTF-8 bytes. -/
def quote_plus (s : String) : String :=
  String.mk (s.data.flatMap quotePlusChar)

/-- Interface model of the external `urllib.parse.parse_qsl` with
`keep_blank_values=True`: split the query on `&`, skip empty fields, split
each field at its first `=` (a field without `=` keeps a blank value), and
unquote both name and value. -/
def parse_qsl (query : String) : List (String × String) :=
  ((splitOnChar '&' query).filter (fun f => f ≠ "")).map fun nv =>
    match splitFirst '=' nv with
    | (name, some value) => (unquote_plus name, unquote_plus value)
    | (name, none) => (unquote_plus name, "")

/-- Append a parsed pair into the multi-dict: extend an existing key's value
list, or append a new key at the end (Python dict insertion order). -/
def addQsPair (d : List (String × List String)) (k v : String) :
    List (String × List String) :=
  match d with
  | [] => [(k, [v])]
  | (k', vs) :: rest =>
    if k' = k then (k', vs ++ [v]) :: rest else (k', vs) :: addQsPair rest k v

/-- Interface model of the external `urllib.parse.parse_qs` with
`keep_blank_values=True`: the pair list grouped into an insertion-ordered
multi-dict. -/
def parse_qs (query : String) : List (String × List String) :=
  (parse_qsl query).foldl (fun d kv => addQsPair d kv.1 kv.2) []

/-- The dict assignment `q[key] = [value]` of `src/main.py` line 65: replace
the key's value list in place, or append the key at the end. -/
def upsertQ (d : List (String × List String)) (k : String) (v : List String) :
    List (String × List String) :=
  match d with
  | [] => [(k, v)]
  | (k', vs) :: rest =>
    if k' = k then (k, v) :: rest else (k', vs) :: upsertQ rest k v

/-- Interface model of the external `urllib.parse.urlencode` with
`doseq=True` on a str-to-list multi-dict: one `key=value` field per list
element, keys and values quoted, joined with `&`. -/
def urlencode (q : List (String × List String)) : String :=
  String.intercalate "&"
    (q.flatMap fun kv => kv.2.map fun v => quote_plus kv.1 ++ "=" ++ quote_plus v)

/-- The six components `urllib.parse.urlparse` returns. -/
structure UrlParts where
  scheme : String
  netloc : String
  path : String
  params : String
  query : String
  fragment : String
  deriving DecidableEq, Repr

/-- Characters allowed in a URL scheme after the first. -/
def isSchemeChar (c : Char) : Bool :=
  c.isAlphanum || c = '+' || c = '-' || c = '.'

/-- Scheme split of `urlsplit`: a non-empty prefix before the first `:`
starting with an ASCII letter and made of scheme characters is the scheme,
lowercased. -/
def splitScheme (cs : List Char) : String × List Char :=
  match cs.span (fun c => c ≠ ':') with
  | (pre, ':' :: rest) =>
    match pre with
    | [] => ("", cs)
    | c0 :: _ =>
      if c0.isAlpha && pre.all isSchemeChar then
        (String.mk (pre.map Char.toLower), rest)
      else ("", cs)
  | _ => ("", cs)

/-- Netloc split of `urlsplit`: after a leading `//`, up to the next `/`,
`?` or `#` (the bracketed-IPv6 validation, which can only raise, is
omitted). -/
def splitNetloc (cs : List Char) : String × List Char :=
  match cs with
  | '/' :: '/' :: rest =>
    let n := rest.takeWhile (fun c => c ≠ '/' && c ≠ '?' && c ≠ '#')
    (String.mk n, rest.drop n.length)
  | _ => ("", cs)

/-- The schemes for which `urlparse` splits `;params` off the path. -/
def uses_params : List String :=
  ["", "ftp", "hdl", "prospero", "http", "imap", "https", "shttp", "rtsp",
   "rtspu", "sip", "sips", "mms", "sftp", "tel"]

/-- Params split of `urlparse` (`_splitparams`): the part after the first
`;` of the last path segment (of the whole path when it has no `/`). -/
def splitParams (path : String) : String × String :=
  let cs := path.data
  if cs.contains '/' then
    let seg := (cs.reverse.takeWhile (fun c => c ≠ '/')).reverse
    let headPart := cs.take (cs.length - seg.length)
    match seg.span (fun c => c ≠ ';') with
    | (pre, ';' :: after) => (String.mk (headPart ++ pre), String.mk after)
    | _ => (path, "")
  else
    match cs.span (fun c => c ≠ ';') with
    | (pre, ';' :: after) => (String.mk pre, String.mk after)
    | _ => (path, "")

/-- Interface model of the external `urllib.parse.urlparse`, following
CPython's `urlsplit` order: strip leading control-or-space characters and
remove tab, CR and LF; split off the scheme, then the netloc, then the
fragment at the first `#`, then the query at the first `?`; finally split
`;params` off the path for the schemes that use them. -/
def urlparse (url : String) : UrlParts :=
  let cs0 := (url.data.dropWhile (fun c => c.toNat ≤ 0x20)).filter
    (fun c => c ≠ '\t' && c ≠ '\r' && c ≠ '\n')
  let (scheme, r1) := splitScheme cs0
  let (netloc, r2) := splitNetloc r1
  let (beforeFrag, fragment) := splitFirst '#' (String.mk r2)
  let (pathq, query) := splitFirst '?' beforeFrag
  let (path, params) :=
    if uses_params.contains scheme && strContains pathq ";" then splitParams pathq
    else (pathq, "")
  ⟨scheme, netloc, path, params, query.getD "", fragment.getD ""⟩

/-- Interface model of the external `urllib.parse.urlunparse` (through
`urlunsplit`): reattach `;params` to the path, restore `//netloc` (adding a
leading `/` to a relative path when a netloc is present), then the scheme,
then `?query` and `#fragment` — each only when non-empty. -/
def urlunparse (u : UrlParts) : String :=
  let url0 := if u.params ≠ "" then u.path ++ ";" ++ u.params else u.path
  let url1 :=
    if u.netloc ≠ "" ∨ startsWithL url0 "//" = true then
      (if url0 ≠ "" ∧ startsWithL url0 "/" = false then
        "//" ++ u.netloc ++ "/" ++ url0
      else "//" ++ u.netloc ++ url0)
    else url0
  let url2 := if u.scheme ≠ "" then u.scheme ++ ":" ++ url1 else url1
  let url3 := if u.query ≠ "" then url2 ++ "?" ++ u.query else url2
  if u.fragment ≠ "" then url3 ++ "#" ++ u.fragment else url3

/-- Embedding of `set_query_param` (`src/main.py` lines 62-67): parse the
URL, parse its query into the keep-blank-values multi-dict, overwrite the
key with the single new value (`q[key] = [value]`, collapsing any duplicate
occurrences of the key), re-encode the query, and reassemble the URL. -/
def set_query_param (url key value : String) : String :=
  let u := urlparse url
  let q := parse_qs u.query
  let new_query := urlencode (upsertQ q key [value])
  urlunparse ⟨u.scheme, u.netloc, u.path, u.params, new_query, u.fragment⟩

/-- Set-equality of URL collections, as Python compares the two
comprehension sets (`src/main.py` lines 226 and 235-236). -/
def urlSetEq (l1 l2 : List String) : Bool :=
  l1.all (fun u => l2.contains u) && l2.all (fun u => l1.contains u)

inductive PageMode where
  | page
  | offset
  deriving DecidableEq, Repr

/-- The tuple `(mode, param_name, step, offset_one_based)` returned by
`discover_pagination_mode`. -/
structure Scheme where
  mode : PageMode
  param : String
  step : Nat
  one_based : Bool
  deriving DecidableEq, Repr

inductive DiscoveryError where
  | emptyFirstPage
  | exhausted
  deriving DecidableEq, Repr

/-- One probe (`src/main.py` lines 232-236 and 246-251): fetch the base URL
with the candidate parameter set, parse, and test for a non-empty record set
whose URL set differs from the first page's. -/
def probeOk (fetch : Fetch) (base : String) (firstUrls : List String)
    (p v : String) : Bool :=
  let items := parse_list_page (fetch (set_query_param base p v))
  !items.isEmpty && !urlSetEq (items.map (·.url)) firstUrls

def page_params : List String := ["page", "pageIndex", "pageNo", "pageNum", "p", "pg"]
def offset_params : List String := ["start", "offset", "from", "begin"]

/-- The page-parameter loop (`src/main.py` lines 231-239), also returning the
`(param, value)` probes actually issued, in order. -/
def tryPage (fetch : Fetch) (base : String) (firstUrls : List String) :
    List String → Option String × List (String × String)
  | [] => (none, [])
  | p :: rest =>
    if probeOk fetch base firstUrls p "2" then (some p, [(p, "2")])
    else
      let r := tryPage fetch base firstUrls rest
      (r.1, (p, "2") :: r.2)

/-- The offset-parameter loop (`src/main.py` lines 242-253), zero-based value
first, then one-based, also returning the probes actually issued. -/
def tryOffset (fetch : Fetch) (base : String) (firstUrls : List String)
    (pageSize : Nat) : List String → Option (String × Bool) × List (String × String)
  | [] => (none, [])
  | p :: rest =>
    if probeOk fetch base firstUrls p (toString pageSize) then
      (some (p, false), [(p, toString pageSize)])
    else if probeOk fetch base firstUrls p (toString (pageSize + 1)) then
      (some (p, true), [(p, toString pageSize), (p, toString (pageSize + 1))])
    else
      let r := tryOffset fetch base firstUrls pageSize rest
      (r.1, (p, toString pageSize) :: (p, toString (pageSize + 1)) :: r.2)

/-- Embedding of `discover_pagination_mode` (`src/main.py` lines 209-258), returning the
scheme (or the error the `raise` statements produce) together with the probe
URLs fetched, in order. -/
def discover_pagination_mode (fetch : Fetch) (base : String)
    (first_page_items : List NewsItem) :
    Except DiscoveryError Scheme × List String :=
  if first_page_items.isEmpty then (.error .emptyFirstPage, [])
  else
    let firstUrls := first_page_items.map (·.url)
    let pageSize := max 1 first_page_items.length
    let rp := tryPage fetch base firstUrls page_params
    match rp.1 with
    | some p => (.ok ⟨.page, p, 0, false⟩, rp.2.map (fun pv => set_query_param base pv.1 pv.2))
    | none =>
      let ro := tryOffset fetch base firstUrls pageSize offset_params
      let probes := (rp.2 ++ ro.2).map (fun pv => set_query_param base pv.1 pv.2)
      match ro.1 with
      | some pb => (.ok ⟨.offset, pb.1, pageSize, pb.2⟩, probes)
      | none => (.error .exhausted, probes)

/-- One probe candidate, with the scheme discovery would fix on its
success. -/
structure Cand where
  param : String
  value : String
  scheme : Scheme
  deriving DecidableEq, Repr

/-- The page-index candidate for one parameter name. -/
def mkPageCand (p : String) : Cand :=
  ⟨p, "2", ⟨.page, p, 0, false⟩⟩

/-- The page-index candidates of a parameter list, in order. -/
def pageCandsOf (l : List String) : List Cand :=
  l.map mkPageCand

/-- The two offset candidates (zero-based first) of one parameter name. -/
def mkOffsetCands (pageSize : Nat) (p : String) : List Cand :=
  [⟨p, toString pageSize, ⟨.offset, p, pageSize, false⟩⟩,
   ⟨p, toString (pageSize + 1), ⟨.offset, p, pageSize, true⟩⟩]

/-- The offset candidates of a parameter list, in order. -/
def offsetCandsOf (pageSize : Nat) (l : List String) : List Cand :=
  l.flatMap (mkOffsetCands pageSize)

/-- The full ordered candidate list of a discovery run: all page-index
parameters with value "2", then each offset parameter zero-based then
one-based. -/
def candidates (pageSize : Nat) : List Cand :=
  pageCandsOf page_params ++ offsetCandsOf pageSize offset_params

/-- Success test of one candidate. -/
def candOk (fetch : Fetch) (base : String) (firstUrls : List String) (c : Cand) : Bool :=
  probeOk fetch base firstUrls c.param c.value

/-- Generic first-success scan with probe trace: the control shape shared by
the two discovery loops (probe each candidate in order, stop at the first
success, record every probe issued). -/
def scanCands (F : Cand → Bool) : List Cand → Option Cand × List Cand
  | [] => (none, [])
  | c :: rest =>
    if F c then (some c, [c])
    else
      let r := scanCands F rest
      (r.1, c :: r.2)

/-! ### Page sequence generator -/

/-- The page-URL construction of `src/main.py` lines 286-292 for page
`pageNo ≥ 1`. -/
def pageUrl (sch : Scheme) (base : String) (pageNo : Nat) : String :=
  match sch.mode with
  | .page => set_query_param base sch.param (toString pageNo)
  | .offset =>
    let off := (pageNo - 1) * sch.step
    set_query_param base sch.param (toString (if sch.one_based then off + 1 else off))

/-- The records page `n` of the listing parses to, under scheme `sch`. -/
def pageItems (fetch : Fetch) (base : String) (sch : Scheme) (n : Nat) : List NewsItem :=
  parse_list_page (fetch (pageUrl sch base n))

/-- The `while True` loop of `src/main.py` lines 281-303, run with explicit
fuel; returns the yields, the page URLs fetched, and whether the loop
returned within the fuel. -/
def iterLoop (fetch : Fetch) (base : String) (sch : Scheme) (maxPages : Nat) :
    Nat → Nat → List (Nat × String × List NewsItem) × List String × Bool
  | _, 0 => ([], [], false)
  | prev, fuel + 1 =>
    let pageNo := prev + 1
    if maxPages ≠ 0 ∧ maxPages < pageNo then ([], [], true)
    else
      let url := pageUrl sch base pageNo
      let items := parse_list_page (fetch url)
      if items.isEmpty then ([], [url], true)
      else
        let r := iterLoop fetch base sch maxPages pageNo fuel
        ((pageNo, url, items) :: r.1, url :: r.2.1, r.2.2)

/-- The observable trace of one `iter_list_pages` run. -/
structure GenResult where
  yields : List (Nat × String × List NewsItem)
  pageFetches : List String
  probeFetches : List String
  finished : Bool
  discoveryFailed : Bool
  deriving Repr

/-- Embedding of `iter_list_pages` (`src/main.py` lines 261-303), run to completion with
explicit fuel for the unbounded loop. `finished` records that the generator
function returned (or raised discovery failure) rather than running out of
fuel. -/
def iter_list_pages (fetch : Fetch) (base : String) (maxPages fuel : Nat) : GenResult :=
  let items1 := parse_list_page (fetch base)
  let y0 := (0, base, items1)
  if maxPages = 1 then ⟨[y0], [base], [], true, false⟩
  else
    let d := discover_pagination_mode fetch base items1
    match d.1 with
    | .error _ => ⟨[y0], [base], d.2, true, true⟩
    | .ok sch =>
      let r := iterLoop fetch base sch maxPages 0 fuel
      ⟨y0 :: r.1, base :: r.2.1, d.2, r.2.2, false⟩

/-! ### Incremental crawl controller -/

/-- The article-fetch collaborator of the controller: `none` models any
exception in the per-item `try` block (fetch retries exhausted); `some`
returns the flattened article lines. -/
abbrev ArticleFetch := String → Option (List String)

/-- Controller state: the filesystem's set of existing target paths, the
paths written during this run in order, and whether the run has halted on an
already-existing target. -/
structure CState where
  storage : List String
  written : List String
  halted : Bool
  deriving DecidableEq, Repr

/-- The per-item body of `main`'s loop (`src/main.py` lines 325-362): halt
the whole run when the pre-fetch target path already exists, otherwise fetch,
extract, back-fill from the summary, recompute the path and persist;
per-item failures are skipped. -/
def processItem (afetch : ArticleFetch) (outDir : String) (s : CState)
    (it : NewsItem) : CState :=
  if s.halted then s
  else
    let out := target_path outDir it.unit it.date it.title
    if s.storage.contains out then { s with halted := true }
    else
      match afetch it.url with
      | none => s
      | some lines =>
        let art := parse_article_page lines it.url
        let date := pyOrStr art.date it.date
        let unit := pyOrStr art.unit it.unit
        let title := pyOrStr art.title it.title
        let out2 := target_path outDir unit date title
        { s with storage := out2 :: s.storage, written := s.written ++ [out2] }

/-- Process one page's records in order. -/
def processPage (afetch : ArticleFetch) (outDir : String) (s : CState)
    (items : List NewsItem) : CState :=
  items.foldl (processItem afetch outDir) s

/-- The controller (`main`, `src/main.py` lines 321-362) over the summary
pages the generator yields. -/
def runMain (afetch : ArticleFetch) (outDir : String)
    (pages : List (List NewsItem)) (storage0 : List String) : CState :=
  pages.foldl (processPage afetch outDir) ⟨storage0, [], false⟩

/-! ### Spec-side definitions used to state claims -/

/-- First-occurrence deduplication of a key list, keeping first-seen order:
the key order a Python dict built by repeated assignment iterates in. -/
def firstOccurGo : List String → List String → List String
  | [], _ => []
  | u :: rest, seen =>
    if seen.contains u then firstOccurGo rest seen
    else u :: firstOccurGo rest (u :: seen)

/-- Keys of a candidate list in order of first occurrence. -/
def firstOccur (l : List String) : List String :=
  firstOccurGo l []

/-- Lookup in an insertion-ordered association list. -/
def lookupK : List (String × NewsItem) → String → Option NewsItem
  | [], _ => none
  | (k', v) :: rest, k => if k' = k then some v else lookupK rest k

/-- The fixed `era-year(3)-month(2)-day(2)` date shape of the spec. -/
def isDateShape (s : String) : Bool :=
  match s.data with
  | [a, b, c, h1, d, e, h2, f, g] =>
    a.isDigit && b.isDigit && c.isDigit && h1 = '-' && d.isDigit && e.isDigit &&
      h2 = '-' && f.isDigit && g.isDigit
  | _ => false

/-- Stated from claim C8's words (not from the source): the title is the
first line of the next 10 lines after the unit-label line that is non-empty
and does not itself start with any of the five known field labels. Compared
against the source's `scanTitle` below. -/
def titleSpecC8 (block : List String) : Option String :=
  match (block.take 120).findIdx? (fun ln => startsWithL ln unitLabel) with
  | none => none
  | some i =>
    ((block.drop (i + 1)).take 10).find?
      (fun c => c ≠ "" && !(fieldLabels.any (fun p => startsWithL c p)))

/-! ### Concrete fixtures for witnesses and counterexamples -/

def hrefA : String := "/ch/app/news_list/view?module=news&serno=aaa&id=14"
def hrefB : String := "/ch/app/news_list/view?module=news&serno=bbb&id=14"
def hrefC : String := "/ch/app/news_list/view?module=news&serno=ccc&id=14"

def anchA : Anchor := ⟨hrefA, "發布日期：113-05-01 發布單位：交通部 測試標題一"⟩
def anchA2 : Anchor := ⟨hrefA, "發布日期：113-05-02 發布單位：公路局 測試標題二"⟩
def anchB : Anchor := ⟨hrefB, "發布日期：113-04-30 發布單位：公路局 測試標題二"⟩
def anchC : Anchor := ⟨hrefC, "發布日期：113-04-29 發布單位：航港局 測試標題三"⟩

def itemA : NewsItem :=
  ⟨"https://www.motc.gov.tw" ++ hrefA, "113-05-01", "交通部", "測試標題一"⟩
def itemA2 : NewsItem :=
  ⟨"https://www.motc.gov.tw" ++ hrefA, "113-05-02", "公路局", "測試標題二"⟩
def itemB : NewsItem :=
  ⟨"https://www.motc.gov.tw" ++ hrefB, "113-04-30", "公路局", "測試標題二"⟩
def itemC : NewsItem :=
  ⟨"https://www.motc.gov.tw" ++ hrefC, "113-04-29", "航港局", "測試標題三"⟩

def baseU : String := "http://ex/list?id=14"

/-- A fake listing site: the base page holds A and B, the probe `page=2`
holds C (different URL set, so page-index discovery succeeds at the first
candidate), and the page the generator then requests as `page=1` holds B. -/
def fetchSite : Fetch := fun u =>
  if u = baseU then [anchA, anchB]
  else if u = set_query_param baseU "page" "2" then [anchC]
  else if u = set_query_param baseU "page" "1" then [anchB]
  else []

/-- A fake site on which every probe answers with the first page's content,
so discovery exhausts all candidates. -/
def fetchSame : Fetch := fun _ => [anchA, anchB]

/-- Article markup for the C8 counterexample: after the unit-label line, the
first window line is the bare label `發布日期` (no colon), which the source
accepts as title but the claim rejects. -/
def cexLines : List String :=
  ["首頁", "交通新聞稿", "發布單位：交通部", "發布日期", "其他行", "內文"]

/-- Article markup whose body contains a stop marker. -/
def stopLines : List String :=
  ["交通新聞稿", "新聞類別：即時新聞", "發布日期：113-05-01", "發布單位：交通部",
   "測試標題一", "本文第一行", "回上一頁", "不應出現"]

/-! ### General lemmas -/

theorem contains_iff_mem (l : List String) (x : String) : l.contains x = true ↔ x ∈ l := by
  induction l with
  | nil => simp
  | cons y ys ih => simp [List.contains_cons] at *

theorem takeWhile_of_all {α : Type} (p : α → Bool) :
    ∀ l : List α, (∀ x ∈ l, p x = true) → l.takeWhile p = l := by
  intro l
  induction l with
  | nil => intro _; rfl
  | cons c t ih =>
    intro h
    have hc : p c = true := h c (by simp)
    have hstep : List.takeWhile p (c :: t) = c :: List.takeWhile p t := by
      rw [List.takeWhile_cons, hc]; simp
    rw [hstep, ih (fun x hx => h x (by simp [hx]))]

theorem takeWhile_append_false {α : Type} (p : α → Bool) (pre : List α) (m : α)
    (post : List α) (hpre : ∀ x ∈ pre, p x = true) (hm : p m = false) :
    (pre ++ m :: post).takeWhile p = pre := by
  induction pre with
  | nil =>
    simp only [List.nil_append]
    rw [List.takeWhile_cons, hm]; simp
  | cons c t ih =>
    have hc : p c = true := hpre c (by simp)
    have hstep : List.takeWhile p (c :: (t ++ m :: post))
        = c :: List.takeWhile p (t ++ m :: post) := by
      rw [List.takeWhile_cons, hc]; simp
    simp only [List.cons_append]
    rw [hstep, ih (fun x hx => hpre x (by simp [hx]))]

/-! ### Controller lemmas -/

theorem processItem_halted (af : ArticleFetch) (o : String) (s : CState) (it : NewsItem)
    (h : s.halted = true) : processItem af o s it = s := by
  simp [processItem, h]

theorem foldl_processItem_halted (af : ArticleFetch) (o : String) (items : List NewsItem)
    (s : CState) (h : s.halted = true) : items.foldl (processItem af o) s = s := by
  induction items with
  | nil => rfl
  | cons it t ih => simp [List.foldl_cons, processItem_halted af o s it h, ih]

theorem foldl_processPage_halted (af : ArticleFetch) (o : String)
    (pages : List (List NewsItem)) (s : CState) (h : s.halted = true) :
    pages.foldl (processPage af o) s = s := by
  induction pages with
  | nil => rfl
  | cons pg t ih =>
    simp [List.foldl_cons, processPage, foldl_processItem_halted af o pg s h, ih]

/-- Claim C1: whenever the controller reaches a summary record whose storage
path computed from its (unit, date, title) already exists in the current
storage, it halts the entire run at that point: the remaining items of the
current page and all remaining pages are not processed, and no further
documents are written (the final state is exactly the state reached so far,
with the halt flag set). -/
theorem claim_C1 (af : ArticleFetch) (outDir : String) (storage0 : List String)
    (prePages : List (List NewsItem)) (preItems : List NewsItem) (it : NewsItem)
    (postItems : List NewsItem) (postPages : List (List NewsItem))
    (hnh : (processPage af outDir (runMain af outDir prePages storage0) preItems).halted = false)
    (hex : (processPage af outDir (runMain af outDir prePages storage0) preItems).storage.contains
        (target_path outDir it.unit it.date it.title) = true) :
    runMain af outDir (prePages ++ (preItems ++ it :: postItems) :: postPages) storage0
      = { processPage af outDir (runMain af outDir prePages storage0) preItems with
            halted := true } := by
  set s := processPage af outDir (runMain af outDir prePages storage0) preItems with hs
  have h1 : runMain af outDir (prePages ++ (preItems ++ it :: postItems) :: postPages) storage0
      = postPages.foldl (processPage af outDir)
          (processPage af outDir (runMain af outDir prePages storage0)
            (preItems ++ it :: postItems)) := by
    simp [runMain, List.foldl_append]
  have h2 : processPage af outDir (runMain af outDir prePages storage0)
      (preItems ++ it :: postItems)
      = postItems.foldl (processItem af outDir) (processItem af outDir s it) := by
    simp [processPage, List.foldl_append, hs]
  have hexm : target_path outDir it.unit it.date it.title ∈ s.storage :=
    (contains_iff_mem _ _).1 hex
  have h3 : processItem af outDir s it = { s with halted := true } := by
    simp [processItem, hnh, hexm]
  rw [h1, h2, h3, foldl_processItem_halted af outDir postItems _ rfl,
    foldl_processPage_halted af outDir postPages _ rfl]

/-- Witness for C1: storage already holds item B's path; the run over a page
of A, then a page holding B then C, then one more page, halts at B with
nothing written. -/
theorem claim_C1_witness :
    runMain (fun _ => none) "data" ([[itemA]] ++ ([] ++ itemB :: [itemC]) :: [[itemC]])
        [target_path "data" "公路局" "113-04-30" "測試標題二"]
      = ⟨[target_path "data" "公路局" "113-04-30" "測試標題二"], [], true⟩ :=
  claim_C1 (fun _ => none) "data" [target_path "data" "公路局" "113-04-30" "測試標題二"]
    [[itemA]] [] itemB [itemC] [[itemC]] rfl rfl

/-! ### Claim C7: stop-marker truncation -/

/-- Claim C7: the extracted `body_lines` is the pre-truncation body cut at
the first stop-marker line: if the pre-truncation body has no stop-marker
line it is kept whole, and if it decomposes as `pre ++ marker :: post` with a
marker-free `pre`, exactly `pre` is kept. -/
theorem claim_C7 (lines : List String) (url : String) :
    ((∀ ln ∈ rawBodyOfBlock (extract_main_text_block lines), ln ∉ STOP_MARKERS) →
      (parse_article_page lines url).body_lines = rawBodyOfBlock (extract_main_text_block lines))
    ∧ (∀ pre m post, rawBodyOfBlock (extract_main_text_block lines) = pre ++ m :: post →
        m ∈ STOP_MARKERS → (∀ ln ∈ pre, ln ∉ STOP_MARKERS) →
        (parse_article_page lines url).body_lines = pre) := by
  constructor
  · intro h
    show (rawBodyOfBlock (extract_main_text_block lines)).takeWhile
        (fun ln => !STOP_MARKERS.contains ln) = _
    apply takeWhile_of_all
    intro x hx
    have := h x hx
    simp [contains_iff_mem] at this ⊢
    exact this
  · intro pre m post hdec hm hpre
    show (rawBodyOfBlock (extract_main_text_block lines)).takeWhile
        (fun ln => !STOP_MARKERS.contains ln) = _
    rw [hdec]
    apply takeWhile_append_false
    · intro x hx
      have := hpre x hx
      simp [contains_iff_mem] at this ⊢
      exact this
    · simp [contains_iff_mem]
      exact hm

/-- Witness for C7: a concrete article whose body holds the stop marker
`回上一頁`; only the line before it is kept. -/
theorem claim_C7_witness :
    (parse_article_page stopLines "u").body_lines = ["本文第一行"] :=
  (claim_C7 stopLines "u").2 ["本文第一行"] "回上一頁" ["不應出現"] (by decide) (by decide)
    (by decide)

/-! ### Dict lemmas for the URL dedup (claim C6) -/

theorem keys_upsert_mem (m : List (String × NewsItem)) (k : String) (v : NewsItem)
    (h : k ∈ m.map Prod.fst) : (upsert m k v).map Prod.fst = m.map Prod.fst := by
  induction m with
  | nil => simp at h
  | cons kv rest ih =>
    obtain ⟨k', v'⟩ := kv
    by_cases hk : k' = k
    · subst hk
      simp [upsert]
    · simp only [upsert, hk, Bool.false_eq_true, if_false, List.map_cons]
      simp only [List.cons.injEq, true_and]
      apply ih
      simp only [List.map_cons, List.mem_cons] at h
      rcases h with h | h
      · exact absurd h.symm hk
      · exact h

theorem keys_upsert_not_mem (m : List (String × NewsItem)) (k : String) (v : NewsItem)
    (h : k ∉ m.map Prod.fst) :
    (upsert m k v).map Prod.fst = m.map Prod.fst ++ [k] := by
  induction m with
  | nil => simp [upsert]
  | cons kv rest ih =>
    obtain ⟨k', v'⟩ := kv
    have hk : k' ≠ k := by
      intro he
      exact h (by simp [he])
    simp [upsert, hk]
    apply ih
    intro hin
    exact h (by simp [hin])

theorem firstOccurGo_congr (l : List String) : ∀ s1 s2, (∀ u, u ∈ s1 ↔ u ∈ s2) →
    firstOccurGo l s1 = firstOccurGo l s2 := by
  induction l with
  | nil => intro _ _ _; rfl
  | cons u rest ih =>
    intro s1 s2 h
    by_cases hu : u ∈ s1
    · have hu2 : u ∈ s2 := (h u).1 hu
      simp only [firstOccurGo, (contains_iff_mem _ _).2 hu, (contains_iff_mem _ _).2 hu2,
        if_true]
      exact ih s1 s2 h
    · have hu2 : u ∉ s2 := fun hw => hu ((h u).2 hw)
      have h1 : s1.contains u = false :=
        Bool.eq_false_iff.2 (fun hc => hu ((contains_iff_mem _ _).1 hc))
      have h2 : s2.contains u = false :=
        Bool.eq_false_iff.2 (fun hc => hu2 ((contains_iff_mem _ _).1 hc))
      simp only [firstOccurGo, h1, h2, Bool.false_eq_true, if_false, List.cons.injEq,
        true_and]
      apply ih
      intro w
      simp only [List.mem_cons]
      rw [h w]

theorem keys_foldl_upsert (l : List NewsItem) : ∀ m : List (String × NewsItem),
    (l.foldl (fun m it => upsert m it.url it) m).map Prod.fst
      = m.map Prod.fst ++ firstOccurGo (l.map (·.url)) (m.map Prod.fst) := by
  induction l with
  | nil => intro m; simp [firstOccurGo]
  | cons it rest ih =>
    intro m
    simp only [List.foldl_cons, List.map_cons]
    by_cases hk : it.url ∈ m.map Prod.fst
    · have hc : (m.map Prod.fst).contains it.url = true := (contains_iff_mem _ _).2 hk
      rw [ih (upsert m it.url it), keys_upsert_mem m it.url it hk]
      simp only [firstOccurGo, hc, if_true]
    · have hc : (m.map Prod.fst).contains it.url = false :=
        Bool.eq_false_iff.2 (fun hcc => hk ((contains_iff_mem _ _).1 hcc))
      rw [ih (upsert m it.url it), keys_upsert_not_mem m it.url it hk]
      simp only [firstOccurGo, hc, Bool.false_eq_true, if_false]
      rw [List.append_assoc]
      simp only [List.singleton_append]
      congr 1
      congr 1
      apply firstOccurGo_congr
      intro u
      simp only [List.mem_append, List.mem_singleton, List.mem_cons]
      tauto

theorem firstOccurGo_nodup (l : List String) : ∀ seen,
    (firstOccurGo l seen).Nodup ∧ ∀ u ∈ firstOccurGo l seen, u ∉ seen := by
  induction l with
  | nil => intro seen; simp [firstOccurGo]
  | cons u rest ih =>
    intro seen
    by_cases hu : u ∈ seen
    · have hc : seen.contains u = true := (contains_iff_mem _ _).2 hu
      simp only [firstOccurGo, hc, if_true]
      exact ih seen
    · have hc : seen.contains u = false :=
        Bool.eq_false_iff.2 (fun hcc => hu ((contains_iff_mem _ _).1 hcc))
      simp only [firstOccurGo, hc]
      simp only [Bool.false_eq_true, if_false]
      obtain ⟨hnd, hns⟩ := ih (u :: seen)
      refine ⟨List.nodup_cons.2 ⟨fun hin => ?_, hnd⟩, ?_⟩
      · exact hns u hin (by simp)
      · intro w hw
        simp at hw
        rcases hw with hw | hw
        · subst hw; exact hu
        · intro hws
          exact hns w hw (by simp [hws])

theorem lookupK_upsert_self (m : List (String × NewsItem)) (k : String) (v : NewsItem) :
    lookupK (upsert m k v) k = some v := by
  induction m with
  | nil => simp [upsert, lookupK]
  | cons kv rest ih =>
    obtain ⟨k', v'⟩ := kv
    by_cases hk : k' = k
    · subst hk; simp [upsert, lookupK]
    · simp [upsert, lookupK, hk, ih]

theorem lookupK_upsert_other (m : List (String × NewsItem)) (k : String) (v : NewsItem)
    (k' : String) (h : k' ≠ k) : lookupK (upsert m k v) k' = lookupK m k' := by
  have hk2 : ¬ k = k' := fun he => h he.symm
  induction m with
  | nil => simp [upsert, lookupK, hk2]
  | cons kv rest ih =>
    obtain ⟨k0, v0⟩ := kv
    by_cases hk : k0 = k
    · subst hk
      simp [upsert, lookupK, hk2]
    · simp [upsert, lookupK, hk, ih]

theorem getLast?_cons_of_ne_nil {α : Type} (a : α) (l : List α) (h : l ≠ []) :
    (a :: l).getLast? = l.getLast? := by
  cases l with
  | nil => exact absurd rfl h
  | cons b t => rw [List.getLast?_cons_cons]

theorem getLast?_cons_ne_none {α : Type} (a : α) : ∀ l : List α, (a :: l).getLast? ≠ none := by
  intro l
  induction l generalizing a with
  | nil => simp
  | cons b t ih => rw [List.getLast?_cons_cons]; exact ih b

theorem lookupK_foldl (l : List NewsItem) : ∀ (m : List (String × NewsItem)) (k : String),
    lookupK (l.foldl (fun m it => upsert m it.url it) m) k
      = match (l.filter (fun it => it.url == k)).getLast? with
        | some v => some v
        | none => lookupK m k := by
  induction l with
  | nil => intro m k; simp
  | cons it rest ih =>
    intro m k
    simp only [List.foldl_cons]
    rw [ih (upsert m it.url it) k]
    by_cases h : it.url = k
    · have hb : (it.url == k) = true := by simp [h]
      have hfc : (it :: rest).filter (fun it => it.url == k)
          = it :: rest.filter (fun it => it.url == k) := by
        simp only [List.filter_cons, hb, if_true]
      rw [hfc]
      cases hfl : (rest.filter (fun it => it.url == k)).getLast? with
      | some v =>
        have hne : rest.filter (fun it => it.url == k) ≠ [] := by
          intro he
          rw [he] at hfl
          simp at hfl
        rw [getLast?_cons_of_ne_nil it _ hne, hfl]
      | none =>
        have hfe : rest.filter (fun it => it.url == k) = [] := by
          cases hq : rest.filter (fun it => it.url == k) with
          | nil => rfl
          | cons a t =>
            rw [hq] at hfl
            exact absurd hfl (getLast?_cons_ne_none a t)
        rw [hfe]
        show lookupK (upsert m it.url it) k = some it
        subst h
        exact lookupK_upsert_self m it.url it
    · have hb : (it.url == k) = false := by simp [h]
      have hfc : (it :: rest).filter (fun it => it.url == k)
          = rest.filter (fun it => it.url == k) := by
        simp only [List.filter_cons, hb, Bool.false_eq_true, if_false]
      rw [hfc]
      cases hfl : (rest.filter (fun it => it.url == k)).getLast? with
      | some v => rfl
      | none =>
        show lookupK (upsert m it.url it) k = lookupK m k
        exact lookupK_upsert_other m it.url it k (fun he => h he.symm)

theorem mem_upsert (m : List (String × NewsItem)) (k : String) (v : NewsItem)
    (kv : String × NewsItem) (h : kv ∈ upsert m k v) : kv = (k, v) ∨ kv ∈ m := by
  induction m with
  | nil => simp [upsert] at h; simp [h]
  | cons kv0 rest ih =>
    obtain ⟨k0, v0⟩ := kv0
    by_cases hk : k0 = k
    · subst hk
      simp [upsert] at h
      rcases h with h | h
      · left; simp [h]
      · right; simp [h]
    · simp [upsert, hk] at h
      rcases h with h | h
      · right; simp [h]
      · rcases ih h with h' | h'
        · left; exact h'
        · right; simp [h']

theorem mem_foldl_upsert (l : List NewsItem) : ∀ (m : List (String × NewsItem))
    (kv : String × NewsItem), kv ∈ l.foldl (fun m it => upsert m it.url it) m →
    kv ∈ m ∨ (kv.1 = kv.2.url ∧ kv.2 ∈ l) := by
  induction l with
  | nil => intro m kv h; exact Or.inl h
  | cons it rest ih =>
    intro m kv h
    simp only [List.foldl_cons] at h
    rcases ih (upsert m it.url it) kv h with h' | h'
    · rcases mem_upsert m it.url it kv h' with h'' | h''
      · right
        subst h''
        exact ⟨rfl, by simp⟩
      · exact Or.inl h''
    · right
      exact ⟨h'.1, by simp [h'.2]⟩

theorem lookupK_of_mem_nodup (m : List (String × NewsItem)) (kv : String × NewsItem)
    (hm : kv ∈ m) (hn : (m.map Prod.fst).Nodup) : lookupK m kv.1 = some kv.2 := by
  induction m with
  | nil => simp at hm
  | cons kv0 rest ih =>
    obtain ⟨k0, v0⟩ := kv0
    simp at hm
    rcases hm with hm | hm
    · subst hm
      simp [lookupK]
    · have hmem : kv.1 ∈ rest.map Prod.fst := List.mem_map.2 ⟨kv, hm, rfl⟩
      have hk : k0 ≠ kv.1 := by
        intro he
        rw [List.map_cons, List.nodup_cons] at hn
        exact hn.1 (he ▸ hmem)
      have hn' : (rest.map Prod.fst).Nodup := by
        rw [List.map_cons, List.nodup_cons] at hn
        exact hn.2
      simp [lookupK, hk]
      exact ih hm hn'

/-- Claim C6: the listing extractor's final output is unique-by-URL: its URL
list is the first-occurrence deduplication of the pre-dedup candidates' URL
list (each URL exactly once, ordered by first occurrence), and each output
record equals the last pre-dedup candidate carrying its URL — so feeding the
same candidate URL twice yields one record with the later fields winning. -/
theorem claim_C6 (anchors : List Anchor) :
    (parse_list_page anchors).map (·.url) = firstOccur ((preDedupItems anchors).map (·.url))
    ∧ ((parse_list_page anchors).map (·.url)).Nodup
    ∧ ∀ r ∈ parse_list_page anchors,
        ((preDedupItems anchors).filter (fun it => it.url == r.url)).getLast? = some r := by
  have hpair : ∀ kv ∈ uniqMap (preDedupItems anchors),
      kv.1 = kv.2.url ∧ kv.2 ∈ preDedupItems anchors := by
    intro kv hkv
    rcases mem_foldl_upsert (preDedupItems anchors) [] kv hkv with h | h
    · simp at h
    · exact h
  have hkeys : (uniqMap (preDedupItems anchors)).map Prod.fst
      = firstOccur ((preDedupItems anchors).map (·.url)) := by
    have h := keys_foldl_upsert (preDedupItems anchors) []
    simpa [firstOccur, uniqMap] using h
  have hmapurl : (parse_list_page anchors).map (·.url)
      = (uniqMap (preDedupItems anchors)).map Prod.fst := by
    show ((uniqMap (preDedupItems anchors)).map (·.2)).map (·.url) = _
    rw [List.map_map]
    apply List.map_congr_left
    intro kv hkv
    exact (hpair kv hkv).1.symm
  refine ⟨hmapurl.trans hkeys, ?_, ?_⟩
  · rw [hmapurl, hkeys]
    exact (firstOccurGo_nodup ((preDedupItems anchors).map (·.url)) []).1
  · intro r hr
    have hr' : r ∈ (uniqMap (preDedupItems anchors)).map (·.2) := hr
    rcases List.mem_map.1 hr' with ⟨kv, hkv, hkv2⟩
    have hk1 : kv.1 = r.url := by rw [(hpair kv hkv).1, hkv2]
    have hnd : ((uniqMap (preDedupItems anchors)).map Prod.fst).Nodup := by
      rw [hkeys]
      exact (firstOccurGo_nodup ((preDedupItems anchors).map (·.url)) []).1
    have hlk : lookupK (uniqMap (preDedupItems anchors)) kv.1 = some kv.2 :=
      lookupK_of_mem_nodup _ kv hkv hnd
    rw [hk1, hkv2] at hlk
    have hfold := lookupK_foldl (preDedupItems anchors) [] r.url
    rw [show (preDedupItems anchors).foldl (fun m it => upsert m it.url it) []
        = uniqMap (preDedupItems anchors) from rfl] at hfold
    rw [hlk] at hfold
    cases hfl : ((preDedupItems anchors).filter (fun it => it.url == r.url)).getLast? with
    | some v =>
      rw [hfl] at hfold
      simpa using hfold.symm
    | none =>
      rw [hfl] at hfold
      simp [lookupK] at hfold

/-- Witness for C6: two anchors sharing one URL but carrying different
fields collapse to a single record with the second anchor's fields. -/
theorem claim_C6_witness :
    ((preDedupItems [anchA, anchA2]).filter (fun it => it.url == itemA2.url)).getLast?
      = some itemA2 :=
  (claim_C6 [anchA, anchA2]).2.2 itemA2 (by decide)

/-! ### Listing-field lemmas (claim C5) -/

theorem mem_dedupByUrl (l : List NewsItem) (r : NewsItem) (h : r ∈ dedupByUrl l) :
    r ∈ l := by
  rcases List.mem_map.1 h with ⟨kv, hkv, hkv2⟩
  rcases mem_foldl_upsert l [] kv hkv with h' | h'
  · simp at h'
  · rw [← hkv2]
    exact h'.2

theorem reSearch_prop {α : Type} (f : List Char → Option α) (P : α → Prop)
    (hf : ∀ cs v, f cs = some v → P v) : ∀ cs v, reSearch f cs = some v → P v := by
  intro cs
  induction cs with
  | nil => exact fun v hv => hf [] v hv
  | cons c t ih =>
    intro v hv
    simp only [reSearch] at hv
    cases hfc : f (c :: t) with
    | some w =>
      rw [hfc] at hv
      exact hf (c :: t) v (by rw [hfc]; exact hv)
    | none =>
      rw [hfc] at hv
      exact ih v hv

theorem takeDigits_spec : ∀ (k : Nat) (cs ds r : List Char),
    takeDigits k cs = some (ds, r) → ds.length = k ∧ ∀ c ∈ ds, c.isDigit = true := by
  intro k
  induction k with
  | zero =>
    intro cs ds r h
    simp [takeDigits] at h
    simp [h.1]
  | succ n ih =>
    intro cs ds r h
    cases cs with
    | nil => simp [takeDigits] at h
    | cons c t =>
      simp only [takeDigits] at h
      by_cases hd : c.isDigit
      · rw [if_pos hd] at h
        cases hrec : takeDigits n t with
        | none => rw [hrec] at h; simp at h
        | some pr =>
          rw [hrec] at h
          simp at h
          obtain ⟨h1, h2⟩ := h
          obtain ⟨hl, hall⟩ := ih t pr.1 pr.2 (by rw [hrec])
          constructor
          · rw [← h1]; simp [hl]
          · intro x hx
            rw [← h1] at hx
            simp at hx
            rcases hx with hx | hx
            · rw [hx]; exact hd
            · exact hall x hx
      · rw [if_neg hd] at h
        simp at h

theorem dateAfter_shape (cs : List Char) (s : String) (h : dateAfter cs = some s) :
    isDateShape s = true := by
  simp only [dateAfter, Option.bind_eq_some] at h
  obtain ⟨p1, h1, r1, _, p2, h3, r2, _, p3, h5, h6⟩ := h
  obtain ⟨hl1, ha1⟩ := takeDigits_spec 3 _ p1.1 p1.2 (by rw [h1])
  obtain ⟨hl2, ha2⟩ := takeDigits_spec 2 _ p2.1 p2.2 (by rw [h3])
  obtain ⟨hl3, ha3⟩ := takeDigits_spec 2 _ p3.1 p3.2 (by rw [h5])
  have h6' : String.mk (p1.1 ++ '-' :: p2.1 ++ '-' :: p3.1) = s := by
    simpa using h6
  rcases List.length_eq_three.1 hl1 with ⟨a, b, c, hd1⟩
  rcases List.length_eq_two.1 hl2 with ⟨d, e, hd2⟩
  rcases List.length_eq_two.1 hl3 with ⟨f, g, hd3⟩
  rw [← h6', isDateShape]
  rw [hd1] at ha1 ⊢
  rw [hd2] at ha2 ⊢
  rw [hd3] at ha3 ⊢
  simp only [List.cons_append, List.nil_append]
  simp [ha1 a (by simp), ha1 b (by simp), ha1 c (by simp),
    ha2 d (by simp), ha2 e (by simp), ha3 f (by simp), ha3 g (by simp)]

theorem unitAfter_spec (cs : List Char) (u : String) (h : unitAfter cs = some u) :
    u ≠ "" ∧ u.data.all (fun c => !isPySpace c) = true := by
  simp only [unitAfter] at h
  by_cases he : ((cs.dropWhile isPySpace).takeWhile (fun c => !isPySpace c)).isEmpty
  · rw [if_pos he] at h; simp at h
  · rw [if_neg he] at h
    simp at h
    constructor
    · intro hu
      rw [← h] at hu
      have hdata : (cs.dropWhile isPySpace).takeWhile (fun c => !isPySpace c) = [] :=
        congrArg String.data hu
      rw [hdata] at he
      simp at he
    · rw [← h]
      show ((cs.dropWhile isPySpace).takeWhile (fun c => !isPySpace c)).all
          (fun c => !isPySpace c) = true
      rw [List.all_eq_true]
      intro c hc
      have hp := List.mem_takeWhile_imp hc
      simpa using hp

theorem append_ne_empty_left (s t : String) (h : s ≠ "") : s ++ t ≠ "" := by
  intro he
  apply h
  have hd := congrArg String.data he
  rw [String.data_append] at hd
  rcases List.append_eq_nil.1 hd with ⟨h1, _⟩
  exact String.ext h1

theorem urljoin_BASE_ne (rel : String) : urljoin BASE_URL rel ≠ "" := by
  unfold urljoin
  split
  · decide
  · split
    · next hne _ => exact hne
    · split
      · exact append_ne_empty_left _ _ (by decide)
      · exact append_ne_empty_left _ _ (append_ne_empty_left _ _ (by decide))

theorem parseAnchor_spec (a : Anchor) (it : NewsItem) (h : parseAnchor a = some it) :
    it.url ≠ "" ∧ it.unit ≠ "" ∧ it.unit.data.all (fun c => !isPySpace c) = true ∧
      it.title ≠ "" ∧ isDateShape it.date = true := by
  simp only [parseAnchor] at h
  by_cases hg : !(strContains a.text dateLabel && strContains a.text unitLabel)
  · rw [if_pos hg] at h; simp at h
  · rw [if_neg hg] at h
    cases hd : searchDate a.text with
    | none => rw [hd] at h; simp at h
    | some date =>
      cases hu : searchUnit a.text with
      | none => rw [hd, hu] at h; simp at h
      | some unit =>
        rw [hd, hu] at h
        have h' : (if titleOf a.text = "" then none
            else some (⟨urljoin BASE_URL (pyStrip a.href), date, unit,
              titleOf a.text⟩ : NewsItem)) = some it := h
        by_cases ht : titleOf a.text = ""
        · rw [if_pos ht] at h'; simp at h'
        · rw [if_neg ht] at h'
          simp at h'
          subst h' 
          have hdate : isDateShape date = true := by
            apply reSearch_prop _ (fun s => isDateShape s = true) ?_ a.text.data date hd
            intro cs v hv
            cases hm : matchLit dateLabel.data cs with
            | none => rw [hm] at hv; simp at hv
            | some rest =>
              rw [hm] at hv
              simp at hv
              exact dateAfter_shape rest v hv
          have hunit : unit ≠ "" ∧ unit.data.all (fun c => !isPySpace c) = true := by
            apply reSearch_prop _
              (fun s => s ≠ "" ∧ s.data.all (fun c => !isPySpace c) = true) ?_
              a.text.data unit hu
            intro cs v hv
            cases hm : matchLit unitLabel.data cs with
            | none => rw [hm] at hv; simp at hv
            | some rest =>
              rw [hm] at hv
              simp at hv
              exact unitAfter_spec rest v hv
          exact ⟨urljoin_BASE_ne _, hunit.1, hunit.2, ht, hdate⟩

/-- Claim C5: every record the listing extractor emits has a non-empty URL,
a non-empty whitespace-free unit, a non-empty title, and a publish date of
the fixed 3-2-2 digit shape. -/
theorem claim_C5 (anchors : List Anchor) :
    ∀ it ∈ parse_list_page anchors,
      it.url ≠ "" ∧ it.unit ≠ "" ∧ it.unit.data.all (fun c => !isPySpace c) = true ∧
        it.title ≠ "" ∧ isDateShape it.date = true := by
  intro it hit
  have hpre : it ∈ preDedupItems anchors := mem_dedupByUrl _ it hit
  rcases List.mem_filterMap.1 hpre with ⟨a, _, hpa⟩
  exact parseAnchor_spec a it hpa

/-- Witness for C5: the record parsed from a concrete listing anchor. -/
theorem claim_C5_witness :
    itemA.url ≠ "" ∧ itemA.unit ≠ "" ∧
      itemA.unit.data.all (fun c => !isPySpace c) = true ∧
      itemA.title ≠ "" ∧ isDateShape itemA.date = true :=
  claim_C5 [anchA] itemA (by decide)

/-! ### Discovery lemmas (claims C3, C4) -/

theorem scanCands_eq (F : Cand → Bool) : ∀ l : List Cand,
    scanCands F l
      = (l.find? F,
         l.takeWhile (fun c => !F c) ++ (l.dropWhile (fun c => !F c)).take 1) := by
  intro l
  induction l with
  | nil => rfl
  | cons c rest ih =>
    by_cases hc : F c
    · simp [scanCands, List.find?_cons, List.takeWhile_cons, List.dropWhile_cons, hc]
    · simp [scanCands, List.find?_cons, List.takeWhile_cons, List.dropWhile_cons, hc, ih]

theorem scanCands_append (F : Cand → Bool) : ∀ l1 l2 : List Cand,
    scanCands F (l1 ++ l2)
      = match (scanCands F l1).1 with
        | some c => (some c, (scanCands F l1).2)
        | none => ((scanCands F l2).1, (scanCands F l1).2 ++ (scanCands F l2).2) := by
  intro l1 l2
  induction l1 with
  | nil => simp [scanCands]
  | cons c rest ih =>
    by_cases hc : F c
    · simp [scanCands, hc]
    · simp only [List.cons_append, scanCands, hc, Bool.false_eq_true, if_false,
        List.append_eq]
      rw [ih]
      cases hs : (scanCands F rest).1 with
      | some c' => simp
      | none => simp

theorem tryPage_scan (fetch : Fetch) (base : String) (fu : List String) :
    ∀ l : List String,
    tryPage fetch base fu l
      = ((scanCands (candOk fetch base fu) (pageCandsOf l)).1.map (fun c => c.param),
         (scanCands (candOk fetch base fu) (pageCandsOf l)).2.map
           (fun c => (c.param, c.value))) := by
  intro l
  induction l with
  | nil => rfl
  | cons p rest ih =>
    by_cases hp : probeOk fetch base fu p "2"
    · simp [tryPage, pageCandsOf, scanCands, candOk, mkPageCand, hp]
    · simp only [tryPage, pageCandsOf, List.map_cons, scanCands, candOk, mkPageCand, hp,
        Bool.false_eq_true, if_false, ih]

theorem tryOffset_scan (fetch : Fetch) (base : String) (fu : List String) (ps : Nat) :
    ∀ l : List String,
    tryOffset fetch base fu ps l
      = ((scanCands (candOk fetch base fu) (offsetCandsOf ps l)).1.map
           (fun c => (c.param, c.scheme.one_based)),
         (scanCands (candOk fetch base fu) (offsetCandsOf ps l)).2.map
           (fun c => (c.param, c.value))) := by
  intro l
  induction l with
  | nil => rfl
  | cons p rest ih =>
    by_cases h0 : probeOk fetch base fu p (toString ps)
    · simp [tryOffset, offsetCandsOf, mkOffsetCands, scanCands, candOk, h0]
    · by_cases h1 : probeOk fetch base fu p (toString (ps + 1))
      · simp [tryOffset, offsetCandsOf, mkOffsetCands, scanCands, candOk, h0, h1]
      · simp only [tryOffset, h0, h1, Bool.false_eq_true, if_false, ih]
        simp only [offsetCandsOf, mkOffsetCands, scanCands, candOk, h0, h1, List.flatMap]
        simp [scanCands, candOk, h0, h1]

theorem mem_pageCandsOf (l : List String) (c : Cand) (h : c ∈ pageCandsOf l) :
    c.value = "2" ∧ c.scheme = ⟨.page, c.param, 0, false⟩ := by
  rcases List.mem_map.1 h with ⟨p, _, hp⟩
  rw [← hp]
  exact ⟨rfl, rfl⟩

theorem mem_offsetCandsOf (ps : Nat) (l : List String) (c : Cand)
    (h : c ∈ offsetCandsOf ps l) :
    c.scheme = ⟨.offset, c.param, ps, c.scheme.one_based⟩ := by
  rcases List.mem_flatMap.1 h with ⟨p, _, hp⟩
  simp [mkOffsetCands] at hp
  rcases hp with hp | hp <;> rw [hp]

/-- Core characterization: discovery on a non-empty first page is exactly the
first-success scan of the fixed candidate list. -/
theorem discover_eq_scan (fetch : Fetch) (base : String) (items1 : List NewsItem)
    (h : items1 ≠ []) :
    discover_pagination_mode fetch base items1
      = (match (scanCands (candOk fetch base (items1.map (·.url)))
              (candidates (max 1 items1.length))).1 with
         | some c => .ok c.scheme
         | none => .error .exhausted,
         (scanCands (candOk fetch base (items1.map (·.url)))
             (candidates (max 1 items1.length))).2.map
           (fun c => set_query_param base c.param c.value)) := by
  have hne : items1.isEmpty = false := by
    cases items1 with
    | nil => exact absurd rfl h
    | cons a t => rfl
  unfold discover_pagination_mode
  rw [hne]
  simp only [Bool.false_eq_true, if_false]
  rw [tryPage_scan fetch base (items1.map (·.url)) page_params]
  rw [candidates, scanCands_append]
  cases hs1 : (scanCands (candOk fetch base (items1.map (·.url)))
      (pageCandsOf page_params)).1 with
  | some c =>
    have hmem : c ∈ pageCandsOf page_params := by
      have := scanCands_eq (candOk fetch base (items1.map (·.url)))
        (pageCandsOf page_params)
      rw [this] at hs1
      exact List.mem_of_find?_eq_some hs1
    obtain ⟨_, hsch⟩ := mem_pageCandsOf page_params c hmem
    simp only [Option.map_some]
    rw [hsch]
    simp only [List.map_map]
    rfl
  | none =>
    simp only [Option.map_none]
    rw [tryOffset_scan fetch base (items1.map (·.url)) (max 1 items1.length) offset_params]
    cases hs2 : (scanCands (candOk fetch base (items1.map (·.url)))
        (offsetCandsOf (max 1 items1.length) offset_params)).1 with
    | some c =>
      have hmem : c ∈ offsetCandsOf (max 1 items1.length) offset_params := by
        have := scanCands_eq (candOk fetch base (items1.map (·.url)))
          (offsetCandsOf (max 1 items1.length) offset_params)
        rw [this] at hs2
        exact List.mem_of_find?_eq_some hs2
      have hsch := mem_offsetCandsOf (max 1 items1.length) offset_params c hmem
      simp only [Option.map_some]
      rw [hsch]
      simp only [List.map_map, List.map_append]
      rfl
    | none =>
      simp only [Option.map_none]
      simp only [List.map_map, List.map_append]
      rfl

/-- Claim C3: pagination discovery probes the fixed ordered candidate list
(page-index parameters with value "2" first, then each offset parameter
zero-based then one-based) and is exactly first-match: the scheme is the one
attached to the first successful candidate (error if none), and the probes
issued are precisely the failing prefix plus the first success — no further
candidates are attempted. Being a pure function of the fetch mapping, the
selected scheme is the same on every run with the same responses. -/
theorem claim_C3 (fetch : Fetch) (base : String) (items1 : List NewsItem)
    (h : items1 ≠ []) :
    (discover_pagination_mode fetch base items1).1
        = (match (candidates (max 1 items1.length)).find?
              (candOk fetch base (items1.map (·.url))) with
           | some c => .ok c.scheme
           | none => .error .exhausted)
    ∧ (discover_pagination_mode fetch base items1).2
        = (((candidates (max 1 items1.length)).takeWhile
              (fun c => !candOk fetch base (items1.map (·.url)) c)
            ++ ((candidates (max 1 items1.length)).dropWhile
              (fun c => !candOk fetch base (items1.map (·.url)) c)).take 1).map
            (fun c => set_query_param base c.param c.value)) := by
  rw [discover_eq_scan fetch base items1 h]
  rw [scanCands_eq]
  exact ⟨rfl, rfl⟩

/-- Witness for C3: on the concrete fake site the first page-index candidate
succeeds, the scheme is PageIndex with parameter `page`, and exactly one
probe is issued. -/
theorem claim_C3_witness :
    (discover_pagination_mode fetchSite baseU (parse_list_page [anchA, anchB])).1
        = .ok ⟨.page, "page", 0, false⟩
    ∧ (discover_pagination_mode fetchSite baseU (parse_list_page [anchA, anchB])).2
        = [set_query_param baseU "page" "2"] := by
  have h := claim_C3 fetchSite baseU (parse_list_page [anchA, anchB]) (by decide)
  constructor
  · rw [h.1]; rfl
  · rw [h.2]; rfl

/-- Claim C4: discovery fails (with either DiscoveryError variant) exactly
when the first page parses empty or every candidate probe fails; in every
other case it returns a scheme. -/
theorem claim_C4 (fetch : Fetch) (base : String) (items1 : List NewsItem) :
    (∃ e, (discover_pagination_mode fetch base items1).1 = .error e)
      ↔ (items1 = [] ∨ ∀ c ∈ candidates (max 1 items1.length),
            candOk fetch base (items1.map (·.url)) c = false) := by
  by_cases h : items1 = []
  · subst h
    constructor
    · intro _
      exact Or.inl rfl
    · intro _
      exact ⟨.emptyFirstPage, rfl⟩
  · have hchar : (discover_pagination_mode fetch base items1).1
        = (match (candidates (max 1 items1.length)).find?
              (candOk fetch base (items1.map (·.url))) with
           | some c => .ok c.scheme
           | none => .error .exhausted) := by
      rw [discover_eq_scan fetch base items1 h]
      rw [scanCands_eq]
    constructor
    · intro ⟨e, he⟩
      right
      rw [hchar] at he
      cases hf : (candidates (max 1 items1.length)).find?
          (candOk fetch base (items1.map (·.url))) with
      | some c => rw [hf] at he; simp at he
      | none =>
        intro c hc
        have := List.find?_eq_none.1 hf c hc
        exact Bool.eq_false_iff.2 this
    · intro hall
      rcases hall with hall | hall
      · exact absurd hall h
      · refine ⟨.exhausted, ?_⟩
        rw [hchar]
        have hf : (candidates (max 1 items1.length)).find?
            (candOk fetch base (items1.map (·.url))) = none := by
          rw [List.find?_eq_none]
          intro c hc
          rw [hall c hc]
          simp
        rw [hf]

/-! ### Generator lemmas (claims C2, C9) -/

theorem iterLoop_yield_url (fetch : Fetch) (base : String) (sch : Scheme)
    (maxPages : Nat) : ∀ (fuel prev : Nat) (y : Nat × String × List NewsItem),
    y ∈ (iterLoop fetch base sch maxPages prev fuel).1 →
      y.2.1 = pageUrl sch base y.1 ∧ prev + 1 ≤ y.1 := by
  intro fuel
  induction fuel with
  | zero => intro prev y hy; simp [iterLoop] at hy
  | succ n ih =>
    intro prev y hy
    simp only [iterLoop] at hy
    by_cases hcap : maxPages ≠ 0 ∧ maxPages < prev + 1
    · rw [if_pos hcap] at hy; simp at hy
    · rw [if_neg hcap] at hy
      by_cases hempty : (parse_list_page (fetch (pageUrl sch base (prev + 1)))).isEmpty
      · rw [if_pos hempty] at hy; simp at hy
      · rw [if_neg hempty] at hy
        rcases List.mem_cons.1 hy with hy | hy
        · rw [hy]
          exact ⟨rfl, Nat.le_refl _⟩
        · obtain ⟨hu, hle⟩ := ih (prev + 1) y hy
          exact ⟨hu, by omega⟩

theorem pageUrl_formula (sch : Scheme) (base : String) (n : Nat) :
    pageUrl sch base n
      = set_query_param base sch.param
          (match sch.mode with
           | .page => toString n
           | .offset => toString ((n - 1) * sch.step + if sch.one_based then 1 else 0)) := by
  cases hm : sch.mode with
  | page => simp [pageUrl, hm]
  | offset =>
    cases hob : sch.one_based with
    | true => simp [pageUrl, hm, hob]
    | false => simp [pageUrl, hm, hob]

/-- Counterexample to claim C2 as stated: on the concrete fake site the
discovered scheme is PageIndex with parameter `page`, but the URL the
generator requests for the yield with 0-based page index 1 carries parameter
value "1" (the raw page counter), not "2" (the 1-based index n + 1 the claim
predicts). -/
theorem claim_C2_counterexample :
    (discover_pagination_mode fetchSite baseU (parse_list_page (fetchSite baseU))).1
        = .ok ⟨.page, "page", 0, false⟩
    ∧ ((iter_list_pages fetchSite baseU 2 10).yields.map (fun y => (y.1, y.2.1)))
        = [(0, baseU), (1, set_query_param baseU "page" "1"),
           (2, set_query_param baseU "page" "2")]
    ∧ set_query_param baseU "page" "1" ≠ set_query_param baseU "page" "2" :=
  ⟨rfl, rfl, by decide⟩

/-- Amended claim C2: for every discovered scheme and every yielded page of
index n ≥ 1, the requested URL is the base URL with the discovered parameter
substituted as follows: in PageIndex mode the parameter equals the 0-based
page index n itself (not n + 1); in Offset mode it equals (n - 1) * step,
incremented by one if the scheme is one-based. -/
theorem claim_C2_amended (fetch : Fetch) (base : String) (maxPages fuel : Nat)
    (sch : Scheme)
    (hd : (discover_pagination_mode fetch base (parse_list_page (fetch base))).1
        = .ok sch) :
    ∀ y ∈ (iter_list_pages fetch base maxPages fuel).yields, 1 ≤ y.1 →
      y.2.1 = set_query_param base sch.param
        (match sch.mode with
         | .page => toString y.1
         | .offset => toString ((y.1 - 1) * sch.step + if sch.one_based then 1 else 0)) := by
  intro y hy h1
  unfold iter_list_pages at hy
  by_cases hmp : maxPages = 1
  · rw [if_pos hmp] at hy
    simp at hy
    rw [hy] at h1
    simp at h1
  · rw [if_neg hmp] at hy
    simp only at hy
    rw [hd] at hy
    simp only at hy
    rcases List.mem_cons.1 hy with hy | hy
    · rw [hy] at h1
      simp at h1
    · obtain ⟨hu, _⟩ := iterLoop_yield_url fetch base sch maxPages fuel 0 y hy
      rw [hu, pageUrl_formula]

/-- Witness for the amended C2: the page the generator yields at index 1 on
the fake site carries parameter value "1". -/
theorem claim_C2_witness :
    (1, set_query_param baseU "page" "1", [itemB])
        ∈ (iter_list_pages fetchSite baseU 2 10).yields
    ∧ set_query_param baseU "page" "1"
        = set_query_param baseU "page" (toString (1 : Nat)) :=
  ⟨by decide,
   claim_C2_amended fetchSite baseU 2 10 ⟨.page, "page", 0, false⟩ rfl
     (1, set_query_param baseU "page" "1", [itemB]) (by decide) (by decide)⟩

theorem scanCands_trace_le (F : Cand → Bool) : ∀ l : List Cand,
    (scanCands F l).2.length ≤ l.length := by
  intro l
  induction l with
  | nil => simp [scanCands]
  | cons c rest ih =>
    by_cases hc : F c
    · simp [scanCands, hc]
    · simp only [scanCands, hc, Bool.false_eq_true, if_false, List.length_cons]
      omega

theorem candidates_length (ps : Nat) : (candidates ps).length = 14 := by
  simp [candidates, pageCandsOf, offsetCandsOf, mkOffsetCands, page_params, offset_params,
    mkPageCand]

theorem discover_probes_le (fetch : Fetch) (base : String) (items1 : List NewsItem) :
    (discover_pagination_mode fetch base items1).2.length ≤ 14 := by
  by_cases h : items1 = []
  · subst h
    simp [discover_pagination_mode]
  · rw [discover_eq_scan fetch base items1 h]
    simp only [List.length_map]
    calc (scanCands (candOk fetch base (items1.map (·.url)))
          (candidates (max 1 items1.length))).2.length
        ≤ (candidates (max 1 items1.length)).length := scanCands_trace_le _ _
      _ = 14 := candidates_length _

theorem iterLoop_fetches_le (fetch : Fetch) (base : String) (sch : Scheme)
    (maxPages : Nat) (hm : maxPages ≠ 0) : ∀ fuel prev : Nat,
    (iterLoop fetch base sch maxPages prev fuel).2.1.length ≤ maxPages - prev := by
  intro fuel
  induction fuel with
  | zero => intro prev; simp [iterLoop]
  | succ n ih =>
    intro prev
    simp only [iterLoop]
    by_cases hcap : maxPages ≠ 0 ∧ maxPages < prev + 1
    · rw [if_pos hcap]; simp
    · rw [if_neg hcap]
      have hlt : prev < maxPages := by
        rcases Nat.lt_or_ge prev maxPages with h | h
        · exact h
        · exact absurd ⟨hm, by omega⟩ hcap
      by_cases hempty : (parse_list_page (fetch (pageUrl sch base (prev + 1)))).isEmpty
      · rw [if_pos hempty]
        simp
        omega
      · rw [if_neg hempty]
        simp only [List.length_cons]
        have := ih (prev + 1)
        omega

theorem iterLoop_finishes (fetch : Fetch) (base : String) (sch : Scheme)
    (maxPages : Nat) (hm : maxPages ≠ 0) : ∀ fuel prev : Nat,
    maxPages - prev < fuel → (iterLoop fetch base sch maxPages prev fuel).2.2 = true := by
  intro fuel
  induction fuel with
  | zero => intro prev h; omega
  | succ n ih =>
    intro prev h
    simp only [iterLoop]
    by_cases hcap : maxPages ≠ 0 ∧ maxPages < prev + 1
    · rw [if_pos hcap]
    · rw [if_neg hcap]
      have hlt : prev < maxPages := by
        rcases Nat.lt_or_ge prev maxPages with h' | h'
        · exact h'
        · exact absurd ⟨hm, by omega⟩ hcap
      by_cases hempty : (parse_list_page (fetch (pageUrl sch base (prev + 1)))).isEmpty
      · rw [if_pos hempty]
      · rw [if_neg hempty]
        exact ih (prev + 1) (by omega)

theorem iterLoop_uncapped (fetch : Fetch) (base : String) (sch : Scheme) (n0 : Nat)
    (hempty : pageItems fetch base sch n0 = [])
    (hnon : ∀ k, 1 ≤ k → k < n0 → pageItems fetch base sch k ≠ []) :
    ∀ fuel prev : Nat, prev < n0 → n0 - prev ≤ fuel →
      iterLoop fetch base sch 0 prev fuel
        = ((List.range' (prev + 1) (n0 - 1 - prev)).map
             (fun n => (n, pageUrl sch base n, pageItems fetch base sch n)),
           (List.range' (prev + 1) (n0 - prev)).map (fun n => pageUrl sch base n),
           true) := by
  intro fuel
  induction fuel with
  | zero => intro prev h1 h2; omega
  | succ n ih =>
    intro prev h1 h2
    simp only [iterLoop]
    rw [if_neg (by simp)]
    by_cases hp : prev + 1 = n0
    · have he : (parse_list_page (fetch (pageUrl sch base (prev + 1)))).isEmpty = true := by
        show (pageItems fetch base sch (prev + 1)).isEmpty = true
        rw [hp, hempty]
        rfl
      rw [if_pos he]
      have h10 : n0 - 1 - prev = 0 := by omega
      have h11 : n0 - prev = 1 := by omega
      rw [h10, h11, hp]
      simp [List.range'_one]
    · have hne : pageItems fetch base sch (prev + 1) ≠ [] :=
        hnon (prev + 1) (by omega) (by omega)
      have he : (parse_list_page (fetch (pageUrl sch base (prev + 1)))).isEmpty = false := by
        show (pageItems fetch base sch (prev + 1)).isEmpty = false
        cases hq : pageItems fetch base sch (prev + 1) with
        | nil => exact absurd hq hne
        | cons a t => rfl
      rw [he]
      simp only [Bool.false_eq_true, if_false]
      rw [ih (prev + 1) (by omega) (by omega)]
      have h10 : n0 - 1 - prev = (n0 - 1 - (prev + 1)) + 1 := by omega
      have h11 : n0 - prev = (n0 - (prev + 1)) + 1 := by omega
      rw [h10, h11, List.range'_succ, List.range'_succ]
      simp only [List.map_cons]
      constructor

/-- Counterexample to claim C9 as stated: with cap maxPages = 2, the run on
the fake site finishes after 3 listing-page fetches plus 1 discovery probe —
4 calls to the fetch collaborator, exceeding the claimed bound of
maxPages + 1 = 3. -/
theorem claim_C9_counterexample :
    (iter_list_pages fetchSite baseU 2 10).finished = true
    ∧ (iter_list_pages fetchSite baseU 2 10).pageFetches.length
        + (iter_list_pages fetchSite baseU 2 10).probeFetches.length = 4
    ∧ ¬(4 ≤ 2 + 1) :=
  ⟨rfl, rfl, by decide⟩

/-- Amended claim C9: with a page cap maxPages > 0 (and fuel beyond it) the
generator terminates after at most maxPages + 1 listing-page fetches plus at
most 14 pagination-discovery probe fetches (the probes are what the original
maxPages + 1 total bound misses); uncapped, it terminates exactly at the
first page index n0 ≥ 1 whose markup parses to zero records — pages
0..n0 are fetched, pages 0..n0−1 are yielded, and the run finishes with the
empty page treated as the end of the sequence, not an error. -/
theorem claim_C9_amended :
    (∀ (fetch : Fetch) (base : String) (maxPages fuel : Nat), maxPages ≠ 0 →
      maxPages < fuel →
      (iter_list_pages fetch base maxPages fuel).finished = true
      ∧ (iter_list_pages fetch base maxPages fuel).pageFetches.length ≤ maxPages + 1
      ∧ (iter_list_pages fetch base maxPages fuel).probeFetches.length ≤ 14)
    ∧ (∀ (fetch : Fetch) (base : String) (fuel : Nat) (sch : Scheme) (n0 : Nat),
      (discover_pagination_mode fetch base (parse_list_page (fetch base))).1
          = .ok sch →
      1 ≤ n0 → n0 ≤ fuel →
      pageItems fetch base sch n0 = [] →
      (∀ k, 1 ≤ k → k < n0 → pageItems fetch base sch k ≠ []) →
      (iter_list_pages fetch base 0 fuel).finished = true
      ∧ (iter_list_pages fetch base 0 fuel).pageFetches
          = base :: (List.range' 1 n0).map (fun n => pageUrl sch base n)
      ∧ (iter_list_pages fetch base 0 fuel).yields.map (fun y => y.1)
          = List.range n0) := by
  constructor
  · intro fetch base maxPages fuel hm hf
    unfold iter_list_pages
    by_cases hmp : maxPages = 1
    · rw [if_pos hmp]
      exact ⟨rfl, by simp [hmp], by simp⟩
    · rw [if_neg hmp]
      simp only
      cases hds : (discover_pagination_mode fetch base (parse_list_page (fetch base))).1 with
      | error e =>
        refine ⟨rfl, ?_, ?_⟩
        · simp
        · exact discover_probes_le fetch base _
      | ok sch =>
        refine ⟨?_, ?_, ?_⟩
        · exact iterLoop_finishes fetch base sch maxPages hm fuel 0 (by omega)
        · simp only [List.length_cons]
          have := iterLoop_fetches_le fetch base sch maxPages hm fuel 0
          omega
        · exact discover_probes_le fetch base _
  · intro fetch base fuel sch n0 hd h1 hfuel hempty hnon
    unfold iter_list_pages
    rw [if_neg (by omega)]
    simp only
    rw [hd]
    simp only
    rw [iterLoop_uncapped fetch base sch n0 hempty hnon fuel 0 (by omega) (by omega)]
    refine ⟨rfl, ?_, ?_⟩
    · simp
    · simp only [List.map_cons]
      rw [List.map_map]
      obtain ⟨m, rfl⟩ : ∃ m, n0 = m + 1 := ⟨n0 - 1, by omega⟩
      show (0 : Nat) :: (List.range' 1 (m + 1 - 1 - 0)).map id = List.range (m + 1)
      rw [List.map_id, List.range_eq_range', List.range'_succ]
      simp

/-- Witness for the amended C9: both parts applied on the fake site — capped
run (cap 2) within bounds, and the uncapped run ends exactly at page 3, the
first empty page. -/
theorem claim_C9_witness :
    ((iter_list_pages fetchSite baseU 2 10).finished = true
      ∧ (iter_list_pages fetchSite baseU 2 10).pageFetches.length ≤ 2 + 1
      ∧ (iter_list_pages fetchSite baseU 2 10).probeFetches.length ≤ 14)
    ∧ ((iter_list_pages fetchSite baseU 0 10).finished = true
      ∧ (iter_list_pages fetchSite baseU 0 10).pageFetches
          = baseU :: (List.range' 1 3).map
              (fun n => pageUrl ⟨.page, "page", 0, false⟩ baseU n)
      ∧ (iter_list_pages fetchSite baseU 0 10).yields.map (fun y => y.1)
          = List.range 3) :=
  ⟨claim_C9_amended.1 fetchSite baseU 2 10 (by decide) (by decide),
   claim_C9_amended.2 fetchSite baseU 10 ⟨.page, "page", 0, false⟩ 3 rfl (by decide)
     (by decide) (by decide)
     (by
       intro k hk1 hk2
       have hk : k = 1 ∨ k = 2 := by omega
       rcases hk with hk | hk <;> subst hk <;> decide)⟩

/-! ### Title-heuristic lemmas (claim C8) -/

theorem dropWhile_head_false {α : Type} (p : α → Bool) : ∀ l : List α,
    l.dropWhile p = [] ∨ ∃ c t, l.dropWhile p = c :: t ∧ p c = false := by
  intro l
  induction l with
  | nil => exact Or.inl rfl
  | cons c t ih =>
    by_cases hc : p c
    · rw [List.dropWhile_cons_of_pos hc]
      exact ih
    · rw [List.dropWhile_cons_of_neg hc]
      exact Or.inr ⟨c, t, rfl, Bool.eq_false_iff.2 hc⟩

theorem dropWhile_idem {α : Type} (p : α → Bool) (l : List α) :
    (l.dropWhile p).dropWhile p = l.dropWhile p := by
  rcases dropWhile_head_false p l with h | ⟨c, t, h, hc⟩
  · rw [h]; rfl
  · rw [h, List.dropWhile_cons_of_neg (by rw [hc]; exact Bool.false_ne_true)]

theorem suffix_getLast? {α : Type} (l1 l2 : List α) (h : l1 <:+ l2) (hne : l1 ≠ []) :
    l2.getLast? = l1.getLast? := by
  obtain ⟨t, rfl⟩ := h
  exact List.getLast?_append_of_ne_nil t hne

theorem stripBoth_head_edge (p : Char → Bool) (cs : List Char) :
    (stripBoth p cs).dropWhile p = stripBoth p cs := by
  unfold stripBoth
  cases hBe : (cs.dropWhile p).reverse.dropWhile p with
  | nil => simp
  | cons b bt =>
    have hAne : cs.dropWhile p ≠ [] := by
      intro hAe
      rw [hAe] at hBe
      simp at hBe
    rcases dropWhile_head_false p cs with hA0 | ⟨a, at', hAc, hpa⟩
    · exact absurd hA0 hAne
    · have hlast : (b :: bt).getLast? = some a := by
        have hsuf : (b :: bt) <:+ (cs.dropWhile p).reverse := by
          rw [← hBe]
          exact List.dropWhile_suffix p
        have h1 := suffix_getLast? (b :: bt) (cs.dropWhile p).reverse hsuf
          (List.cons_ne_nil b bt)
        rw [← h1]
        have h2 : (cs.dropWhile p).reverse.getLast? = (cs.dropWhile p).head? := by
          have h3 := List.head?_reverse (cs.dropWhile p).reverse
          rw [List.reverse_reverse] at h3
          exact h3.symm
        rw [h2, hAc]
        rfl
      have hheadRev : (b :: bt).reverse.head? = some a := by
        rw [List.head?_reverse]
        exact hlast
      cases hRe : (b :: bt).reverse with
      | nil => simp at hRe
      | cons r rt =>
        rw [hRe] at hheadRev
        simp at hheadRev
        rw [List.dropWhile_cons_of_neg]
        rw [hheadRev, hpa]
        exact Bool.false_ne_true

theorem stripBoth_idem (p : Char → Bool) (cs : List Char) :
    stripBoth p (stripBoth p cs) = stripBoth p cs := by
  have e2 := stripBoth_head_edge p cs
  show (((stripBoth p cs).dropWhile p).reverse.dropWhile p).reverse = stripBoth p cs
  rw [e2]
  have hrev : (stripBoth p cs).reverse = (cs.dropWhile p).reverse.dropWhile p := by
    unfold stripBoth
    exact List.reverse_reverse _
  rw [hrev, dropWhile_idem]
  unfold stripBoth
  rfl

theorem pyStrip_idem (s : String) : pyStrip (pyStrip s) = pyStrip s := by
  unfold pyStrip
  congr 1
  exact stripBoth_idem isPySpace s.data

theorem extract_lines_stripped (lines : List String) :
    ∀ ln ∈ extract_main_text_block lines, pyStrip ln = ln := by
  intro ln hln
  have hmem : ln ∈ (lines.map pyStrip).filter (fun x => x ≠ "") := by
    unfold extract_main_text_block at hln
    simp only at hln
    cases hfi : (((lines.map pyStrip).filter (fun x => x ≠ "")).enum.filter
        (fun p => p.2 = bannerLabel)).map (·.1) |>.getLast? with
    | some i =>
      rw [hfi] at hln
      exact List.mem_of_mem_drop hln
    | none =>
      rw [hfi] at hln
      exact hln
  have hmap : ln ∈ lines.map pyStrip := List.mem_of_mem_filter hmem
  rcases List.mem_map.1 hmap with ⟨y, _, hy⟩
  rw [← hy]
  exact pyStrip_idem y

theorem firstGoodCand_eq : ∀ l : List String,
    firstGoodCand l = (l.map pyStrip).find? candAccept := by
  intro l
  induction l with
  | nil => rfl
  | cons ln rest ih =>
    by_cases hc : candAccept (pyStrip ln)
    · simp [firstGoodCand, List.find?_cons, hc]
    · simp only [firstGoodCand, hc, Bool.false_eq_true, if_false, List.map_cons]
      rw [List.find?_cons_of_neg _ (by rw [Bool.eq_false_iff.2 hc]; exact Bool.false_ne_true)]
      exact ih

theorem firstGoodCand_some : ∀ (l : List String) (t : String),
    firstGoodCand l = some t →
      ∃ ln ∈ l, t = pyStrip ln ∧ candAccept t = true := by
  intro l
  induction l with
  | nil => intro t h; simp [firstGoodCand] at h
  | cons ln rest ih =>
    intro t h
    by_cases hc : candAccept (pyStrip ln)
    · simp only [firstGoodCand, hc, if_true] at h
      simp at h
      exact ⟨ln, by simp, h.symm, by rw [h] at hc; exact hc⟩
    · simp only [firstGoodCand, hc, Bool.false_eq_true, if_false] at h
      rcases ih t h with ⟨ln', hln', ht, hacc⟩
      exact ⟨ln', by simp [hln'], ht, hacc⟩

theorem firstIdx_some_of_mem (x : String) : ∀ l : List String, x ∈ l →
    ∃ j, firstIdx x l = some j := by
  intro l
  induction l with
  | nil => intro h; simp at h
  | cons y ys ih =>
    intro h
    by_cases hy : y = x
    · exact ⟨0, by simp [firstIdx, hy]⟩
    · have hx : x ∈ ys := by
        rcases List.mem_cons.1 h with h' | h'
        · exact absurd h'.symm hy
        · exact h'
      rcases ih hx with ⟨j, hj⟩
      exact ⟨j + 1, by simp [firstIdx, hy, hj]⟩

theorem firstIdx_spec (x : String) : ∀ (l : List String) (j : Nat),
    firstIdx x l = some j →
      j < l.length ∧ l.getD j "" = x ∧ ∀ j' < j, l.getD j' "" ≠ x := by
  intro l
  induction l with
  | nil => intro j h; simp [firstIdx] at h
  | cons y ys ih =>
    intro j h
    by_cases hy : y = x
    · simp only [firstIdx, hy, if_true] at h
      simp at h
      subst h
      refine ⟨by simp, by simp [hy], ?_⟩
      intro j' hj'
      omega
    · simp only [firstIdx, hy, Bool.false_eq_true, if_false] at h
      cases hr : firstIdx x ys with
      | none => rw [hr] at h; simp at h
      | some j0 =>
        rw [hr] at h
        simp at h
        obtain ⟨hlen, hget, hmin⟩ := ih j0 hr
        subst h
        refine ⟨by simp; omega, by simpa using hget, ?_⟩
        intro j' hj'
        cases j' with
        | zero => simpa using hy
        | succ j'' =>
          have := hmin j'' (by omega)
          simpa using this

/-- Counterexample to claim C8 as stated: on a concrete article whose first
window line after the unit label is the bare field label `發布日期` (which
contains no full-width colon), the source takes that label line as the title,
while the claim's rule — first non-empty line that does not start with any of
the five field labels — would pick `其他行` instead. -/
theorem claim_C8_counterexample :
    titleSpecC8 (extract_main_text_block cexLines) = some "其他行"
    ∧ (parse_article_page cexLines "u").title = some "發布日期"
    ∧ "發布日期" ∈ fieldLabels
    ∧ startsWithL "發布日期" "發布日期" = true
    ∧ (parse_article_page cexLines "u").title
        ≠ titleSpecC8 (extract_main_text_block cexLines) :=
  ⟨rfl, rfl, by decide, rfl, by decide⟩

/-- Amended claim C8: the title is found by locating the first line starting
with the publish-unit label within the first 120 lines of the working block
and scanning the following at most 9 lines for the first stripped candidate
that is non-empty and not both containing a full-width colon and starting
with one of the five field labels; if the unit label never occurs, the title
stays unset and the pre-truncation body starts at line 10. When a title is
found, the pre-truncation body begins immediately after the first occurrence
of the title string in the working block (the title line itself, unless the
same text also occurs earlier). -/
theorem claim_C8_amended (lines : List String) (url : String) :
    (((extract_main_text_block lines).take 120).findIdx?
        (fun ln => startsWithL ln unitLabel) = none →
      (parse_article_page lines url).title = none
      ∧ rawBodyOfBlock (extract_main_text_block lines)
          = (extract_main_text_block lines).drop 10)
    ∧ (∀ i, ((extract_main_text_block lines).take 120).findIdx?
          (fun ln => startsWithL ln unitLabel) = some i →
        (parse_article_page lines url).title
            = ((titleWindow (extract_main_text_block lines) i).map pyStrip).find? candAccept
        ∧ ((parse_article_page lines url).title = none →
            rawBodyOfBlock (extract_main_text_block lines)
              = (extract_main_text_block lines).drop 10)
        ∧ (∀ t, (parse_article_page lines url).title = some t →
            ∃ j, firstIdx t (extract_main_text_block lines) = some j
              ∧ (extract_main_text_block lines).getD j "" = t
              ∧ (∀ j' < j, (extract_main_text_block lines).getD j' "" ≠ t)
              ∧ rawBodyOfBlock (extract_main_text_block lines)
                  = (extract_main_text_block lines).drop (j + 1))) := by
  have htitle : (parse_article_page lines url).title
      = scanTitle (extract_main_text_block lines) := rfl
  constructor
  · intro hnone
    have hst : scanTitle (extract_main_text_block lines) = none := by
      unfold scanTitle
      rw [hnone]
    constructor
    · rw [htitle, hst]
    · unfold rawBodyOfBlock
      rw [hst]
  · intro i hi
    have hst : scanTitle (extract_main_text_block lines)
        = firstGoodCand (titleWindow (extract_main_text_block lines) i) := by
      unfold scanTitle
      rw [hi]
    refine ⟨?_, ?_, ?_⟩
    · rw [htitle, hst, firstGoodCand_eq]
    · intro ht
      rw [htitle] at ht
      unfold rawBodyOfBlock
      rw [ht]
    · intro t ht
      rw [htitle] at ht
      rcases firstGoodCand_some _ t (hst ▸ ht) with ⟨ln, hln, htln, _⟩
      have hlnB : ln ∈ extract_main_text_block lines := by
        have h1 : ln ∈ (extract_main_text_block lines).drop (i + 1) :=
          List.mem_of_mem_take hln
        exact List.mem_of_mem_drop h1
      have htB : t ∈ extract_main_text_block lines := by
        rw [htln, extract_lines_stripped lines ln hlnB]
        exact hlnB
      rcases firstIdx_some_of_mem t _ htB with ⟨j, hj⟩
      obtain ⟨_, hget, hmin⟩ := firstIdx_spec t _ j hj
      refine ⟨j, hj, hget, hmin, ?_⟩
      unfold rawBodyOfBlock
      rw [ht]
      show (match firstIdx t (extract_main_text_block lines) with
            | some i => (extract_main_text_block lines).drop (i + 1)
            | none => (extract_main_text_block lines).drop 10)
          = (extract_main_text_block lines).drop (j + 1)
      rw [hj]

/-- Witness for the amended C8: in the concrete stop-marker article, the unit
label sits at block index 3 and the title equals the first accepted window
candidate. -/
theorem claim_C8_witness :
    (parse_article_page stopLines "u").title
      = ((titleWindow (extract_main_text_block stopLines) 3).map pyStrip).find? candAccept :=
  (((claim_C8_amended stopLines "u").2 3 (by decide))).1

/-! ### Claim C10: path collisions -/

/-- Claim C10: the storage-path function is not injective: two triples that
differ in the title map to the same path (sanitization maps both `?` and `*`
to `_`), and consequently the controller's existence check can halt a run at
a record whose own document was never written (here storage holds only the
path written for the `a*b` title, and the run over the `a?b` record halts
with nothing written). -/
theorem claim_C10 :
    (("交通部", "113-05-01", "公告a?b") : String × String × String)
        ≠ ("交通部", "113-05-01", "公告a*b")
    ∧ target_path "data" "交通部" "113-05-01" "公告a?b"
        = target_path "data" "交通部" "113-05-01" "公告a*b"
    ∧ (runMain (fun _ => none) "data" [[⟨"u", "113-05-01", "交通部", "公告a?b"⟩]]
        [target_path "data" "交通部" "113-05-01" "公告a*b"]).halted = true
    ∧ (runMain (fun _ => none) "data" [[⟨"u", "113-05-01", "交通部", "公告a?b"⟩]]
        [target_path "data" "交通部" "113-05-01" "公告a*b"]).written = [] :=
  ⟨by decide, rfl, rfl, rfl⟩

end Motc
